import Mathlib

/-!
# Verification of the Desmond session/streaming coordination layer

Shallow embedding of the conversation repository, streaming coordinator,
persistence adapter, cache lifecycle and file-intake logic of the Desmond
chat client, together with proofs and refutations of the specified
properties.

Sources embedded:
* `App.tsx` (the unnamed main component file): `validateFiles`,
  `updateStreamingMessage`, `saveConversations`, `fetchConversations`,
  `handleSendMessage`, `sendMessageMutation` (`mutationFn`, `onMutate`,
  `onSuccess`, `onError`, `onSettled`), escalation state (`isProSession`).
* `src/services/geminiService.ts`: `cleanupActiveCache`, the cache
  supersession block of `streamGeminiResponse`, and its chunk-to-callback
  extraction loop.

Conventions: TypeScript `undefined` is `Option.none`; JavaScript string
truthiness (`undefined` and `""` are falsy) is `strTruthy`; arrays and
objects are truthy whenever present.  Machine integers do not occur
(sizes are plain numbers, far below 2^53, so `Nat` is exact).
-/

/-- The `sender` tag of a message (`'user' | 'ai'`). -/
inductive Sender where
  | user
  | ai
deriving DecidableEq, Repr, BEq

/-- One entry of a message's citation list (`sources`): source URI, title,
optional place identifier. -/
structure SourceRef where
  uri : String
  title : String
  placeId : Option String := none
deriving DecidableEq, Repr, BEq

/-- Inline image payload (base64 + mime type). -/
structure ImageData where
  base64 : String
  mimeType : String
deriving DecidableEq, Repr, BEq

/-- Attached-file descriptor stored on a user message. -/
structure FileRef where
  base64 : String
  mimeType : String
  name : String
deriving DecidableEq, Repr, BEq

/-- Token-usage metadata (`UsageMetadata` in `types.ts`; the fields the
core reads are all optional counters). -/
structure UsageMetadata where
  promptTokenCount : Option Nat := none
  candidatesTokenCount : Option Nat := none
  totalTokenCount : Option Nat := none
deriving DecidableEq, Repr, BEq

/-- The `Message` record of `types.ts`.  `timestamp = ""` models the
empty/absent timestamp of an in-progress streaming message. -/
structure Message where
  id : String
  sender : Sender
  text : String
  timestamp : String
  thoughts : Option String := none
  thinkingTime : Option Nat := none
  files : Option (List FileRef) := none
  sources : Option (List SourceRef) := none
  suggestions : Option (List String) := none
  fullText : Option String := none
  usageMetadata : Option UsageMetadata := none
  executableCode : Option String := none
  codeExecutionResult : Option String := none
  codeExecutionImages : Option (List ImageData) := none
  generatedImages : Option (List ImageData) := none
deriving DecidableEq, Repr, BEq

/-- The `Conversation` record of `types.ts` (the model identifier is kept
as a string, as in the persisted form). -/
structure Conversation where
  id : String
  title : String
  messages : List Message
  model : String
deriving DecidableEq, Repr, BEq

/-- JavaScript truthiness of an optional string: `undefined` and `""` are
falsy, every other string is truthy. -/
def strTruthy : Option String → Bool
  | none => false
  | some s => !(s == "")

/-- JS `a.endsWith b`, expressed on the underlying character lists. -/
def strEndsWith (s post : String) : Bool :=
  post.data.isSuffixOf s.data

/-- JS `a.startsWith b`, expressed on the underlying character lists. -/
def strStartsWith (s pre : String) : Bool :=
  pre.data.isPrefixOf s.data

/-- Substring search on character lists: does `sub` occur inside `hay`? -/
def listContainsSub (sub : List Char) : List Char → Bool
  | [] => sub.isPrefixOf []
  | c :: rest => sub.isPrefixOf (c :: rest) || listContainsSub sub rest

/-- JS `a.includes b` (substring containment). -/
def strContains (s sub : String) : Bool :=
  listContainsSub sub.data s.data

/-- The helper `getFormattedTimestamp` formats the wall clock (`Asia/Manila` locale
string); the embedding abstracts the clock as a natural number.  The only
property the coordination layer relies on is that the result is a
non-empty string. -/
def getFormattedTimestamp (now : Nat) : String :=
  "@" ++ toString now

theorem getFormattedTimestamp_ne_empty (now : Nat) :
    getFormattedTimestamp now ≠ "" := by
  simp [getFormattedTimestamp, String.ext_iff]

/-! ## File Intake (`utils/fileValidation.ts`) -/

/-- The observable attributes of a browser `File` object that
`validateFiles` reads: name, byte size, declared MIME type. -/
structure SimFile where
  name : String
  size : Nat
  mime : String
deriving DecidableEq, Repr, BEq

/-- The constant `MAX_FILE_SIZE = 50 * 1024 * 1024` (50MB). -/
def MAX_FILE_SIZE : Nat := 50 * 1024 * 1024

/-- The constant `ALLOWED_TYPES = ['image/', 'application/pdf']`. -/
def ALLOWED_TYPES : List String := ["image/", "application/pdf"]

/-- Result of `validateFiles`. -/
structure FileValidationResult where
  valid : List SimFile
  errors : List String
deriving DecidableEq, Repr

/-- Per-file step of `validateFiles`'s `forEach` body. -/
def validateFilesStep (acc : FileValidationResult) (file : SimFile) :
    FileValidationResult :=
  if file.size > MAX_FILE_SIZE then
    { acc with errors := acc.errors ++ [file.name ++ " exceeds 50MB limit"] }
  else if !(ALLOWED_TYPES.any fun t => strStartsWith file.mime t) then
    { acc with errors := acc.errors ++
        [file.name ++ " is not an allowed file type (only images and PDFs are supported)"] }
  else
    { acc with valid := acc.valid ++ [file] }

/-- The function `validateFiles` from `utils/fileValidation.ts`. -/
def validateFiles (files : List SimFile) : FileValidationResult :=
  files.foldl validateFilesStep ⟨[], []⟩

/-- A file passes validation iff it is within the size ceiling and its
declared type starts with an allowed prefix. -/
def fileOk (file : SimFile) : Bool :=
  !(file.size > MAX_FILE_SIZE) && (ALLOWED_TYPES.any fun t => strStartsWith file.mime t)

/-- The per-file error message `validateFiles` produces for a bad file. -/
def fileErrorMsg (file : SimFile) : String :=
  if file.size > MAX_FILE_SIZE then file.name ++ " exceeds 50MB limit"
  else file.name ++ " is not an allowed file type (only images and PDFs are supported)"

/-! ## Cache lifecycle (`services/geminiService.ts`) -/

/-- The mutable module state of `geminiService.ts` that the cache
lifecycle touches: whether the client is initialized (`ai !== null`), the
local cache handle (`activeCache`, by name), and — for observation — the
list of `caches.delete` calls issued so far. -/
structure CacheState where
  aiInitialized : Bool
  activeCache : Option String
  deleteCalls : List String
deriving DecidableEq, Repr

/-- The function `cleanupActiveCache` returns immediately unless the client is
initialized and a cache handle is held; otherwise issues one delete call
and clears the handle in a `finally` block, so the handle is cleared even
when the remote deletion throws (the exception is caught and logged). -/
def cleanupActiveCache (s : CacheState) : CacheState :=
  if !s.aiInitialized then s
  else
    match s.activeCache with
    | none => s
    | some old => { s with activeCache := none, deleteCalls := s.deleteCalls ++ [old] }

/-- The old-cache teardown block of `streamGeminiResponse` (lines
519–530): if a cache handle is active, issue one delete call for it and
clear the handle in the `finally` block — even when the deletion throws
(the `catch` swallows the error). -/
def supersedeCachePhase1 (s : CacheState) : CacheState :=
  match s.activeCache with
  | none => s
  | some old => { s with activeCache := none, deleteCalls := s.deleteCalls ++ [old] }

/-- Cache supersession in `streamGeminiResponse`: tear down the old handle
(`supersedeCachePhase1`), then install the newly created cache
(`activeCache = cache`, line 531). -/
def supersedeCache (s : CacheState) (newCache : String) : CacheState :=
  { supersedeCachePhase1 s with activeCache := some newCache }

/-! ## Conversation Repository: `updateStreamingMessage` (App.tsx) -/

/-- The payload of one `onChunk` callback (the `chunk` parameter of
`updateStreamingMessage`); every field is optional. -/
structure Chunk where
  text : Option String := none
  thought : Option String := none
  sources : Option (List SourceRef) := none
  executableCode : Option String := none
  codeExecutionResult : Option String := none
  codeExecutionImages : Option (List ImageData) := none
  generatedImages : Option (List ImageData) := none
deriving DecidableEq, Repr

/-- The per-message guard of `updateStreamingMessage`:
`msg.id.endsWith('-ai') && !msg.timestamp`. -/
def isStreamingTarget (m : Message) : Bool :=
  strEndsWith m.id "-ai" && m.timestamp == ""

/-- The body of `updateStreamingMessage` applied to the matched message.
Text, reasoning-trace, code and code-output fragments are concatenated
(`x = (x || '') + chunk.x`), image lists and usage are replaced wholesale,
citations are appended after filtering out already-present URIs.
`(if !updatedMsg.thoughts then '' else updatedMsg.thoughts) + t` equals
`updatedMsg.thoughts.getD "" ++ t` because the falsy string cases are
exactly `none` and `some ""`. -/
def applyChunkToMessage (msg : Message) (c : Chunk) : Message :=
  { msg with
    text := if strTruthy c.text then msg.text ++ c.text.getD "" else msg.text
    thoughts := if strTruthy c.thought then
        some (msg.thoughts.getD "" ++ c.thought.getD "") else msg.thoughts
    executableCode := if strTruthy c.executableCode then
        some (msg.executableCode.getD "" ++ c.executableCode.getD "") else msg.executableCode
    codeExecutionResult := if strTruthy c.codeExecutionResult then
        some (msg.codeExecutionResult.getD "" ++ c.codeExecutionResult.getD "")
      else msg.codeExecutionResult
    codeExecutionImages := match c.codeExecutionImages with
      | some imgs => some imgs
      | none => msg.codeExecutionImages
    sources := match c.sources with
      | some newSrcs => some ((msg.sources.getD []) ++ (newSrcs.filter fun sNew =>
          !((msg.sources.getD []).any fun sOld => sOld.uri == sNew.uri)))
      | none => msg.sources
    generatedImages := match c.generatedImages with
      | some imgs => some imgs
      | none => msg.generatedImages }

/-- The function `updateStreamingMessage(conversationId, chunk)`: map over the
repository snapshot, and within the target conversation patch every
message whose id ends in `-ai` and whose timestamp is empty. -/
def updateStreamingMessage (convos : List Conversation) (conversationId : String)
    (c : Chunk) : List Conversation :=
  convos.map fun convo =>
    if convo.id == conversationId then
      { convo with messages := convo.messages.map fun msg =>
          if isStreamingTarget msg then applyChunkToMessage msg c else msg }
    else convo

/-- Folding a whole stream of `onChunk` payloads into one message. -/
def applyChunkList (msg : Message) (cs : List Chunk) : Message :=
  cs.foldl applyChunkToMessage msg

/-! ## Chunk extraction in `streamGeminiResponse` (lines 581–664) -/

/-- One `part` of a streamed SDK chunk, with the fields the extraction
loop reads: the `thought` flag, the text, the executable-code object's
code, the code-execution-result's output, inline data. -/
structure RawPart where
  thought : Bool := false
  text : Option String := none
  executableCode : Option String := none
  codeExecutionResult : Option String := none
  inlineData : Option ImageData := none
deriving DecidableEq, Repr

/-- One entry of `urlContextMetadata.urlMetadata`. -/
structure UrlMeta where
  retrievedUrl : Option String
deriving DecidableEq, Repr

/-- Google-Maps grounding payload of a grounding chunk. -/
structure MapsInfo where
  uri : Option String := none
  title : Option String := none
  placeId : Option String := none
deriving DecidableEq, Repr

/-- Web grounding payload of a grounding chunk. -/
structure WebInfo where
  uri : Option String := none
  title : Option String := none
deriving DecidableEq, Repr

/-- One entry of `groundingMetadata.groundingChunks`. -/
structure GroundingChunk where
  maps : Option MapsInfo := none
  web : Option WebInfo := none
deriving DecidableEq, Repr

/-- One streamed SDK chunk as the loop body reads it. -/
structure RawChunk where
  usageMetadata : Option UsageMetadata := none
  parts : List RawPart := []
  urlMetadata : List UrlMeta := []
  groundingChunks : List GroundingChunk := []
deriving DecidableEq, Repr

/-- The filter of line 613: a part contributes to the text stream iff its
text is truthy and it is not a thought, executable-code or
code-execution-result part. -/
def isTextPart (p : RawPart) : Bool :=
  strTruthy p.text && !p.thought && p.executableCode == none && p.codeExecutionResult == none

/-- The text content `textParts.map(part => part.text).join('')` of one chunk. -/
def textContentOf (ck : RawChunk) : String :=
  String.join ((ck.parts.filter isTextPart).map fun p => p.text.getD "")

/-- The `title` computed for a URL-context citation:
`meta.retrievedUrl.split('//').pop() || meta.retrievedUrl`. -/
def urlTitle (url : String) : String :=
  match (url.splitOn "//").reverse with
  | [] => url
  | t :: _ => if t == "" then url else t

/-- Guarded push used by all three citation branches: append the source
unless an entry with the same URI is already accumulated. -/
def pushSource (acc : List SourceRef) (s : SourceRef) : List SourceRef :=
  if acc.any fun o => o.uri == s.uri then acc else acc ++ [s]

/-- URL-context branch of source extraction (lines 626–635). -/
def extractUrlSource (acc : List SourceRef) (meta : UrlMeta) : List SourceRef :=
  match meta.retrievedUrl with
  | some url => if url == "" then acc else pushSource acc ⟨url, urlTitle url, none⟩
  | none => acc

/-- Grounding branch of source extraction (lines 636–659): Maps grounding
first, web grounding in the `else` branch. -/
def extractGroundingSource (acc : List SourceRef) (g : GroundingChunk) : List SourceRef :=
  match g.maps with
  | some mi =>
      if strTruthy mi.uri && strTruthy mi.title then
        pushSource acc ⟨mi.uri.getD "", mi.title.getD "", mi.placeId⟩
      else
        match g.web with
        | some wi =>
            if strTruthy wi.uri && strTruthy wi.title then
              pushSource acc ⟨wi.uri.getD "", wi.title.getD "", none⟩
            else acc
        | none => acc
  | none =>
      match g.web with
      | some wi =>
          if strTruthy wi.uri && strTruthy wi.title then
            pushSource acc ⟨wi.uri.getD "", wi.title.getD "", none⟩
          else acc
      | none => acc

/-- The per-chunk `sources` list (lines 624–659). -/
def extractSources (ck : RawChunk) : List SourceRef :=
  ck.groundingChunks.foldl extractGroundingSource
    (ck.urlMetadata.foldl extractUrlSource [])

/-- Inline images collected from the part loop (code-execution images). -/
def extractCodeImages (ck : RawChunk) : List ImageData :=
  (ck.parts.filterMap fun p => p.inlineData).filter fun d =>
    strStartsWith d.mimeType "image/"

/-- All `onChunk` callbacks issued for one SDK chunk, in program order:
per-part thought / code / code-output emissions, then the collected
code-execution images, then the filtered text content, then the citation
list — each only when non-empty (matching the guards in the source). -/
def chunkCallbacks (ck : RawChunk) : List Chunk :=
  (ck.parts.foldr (fun p rest =>
      (if p.thought then [{ thought := p.text : Chunk }] else []) ++
      (if strTruthy p.executableCode then [{ executableCode := p.executableCode : Chunk }] else []) ++
      (if strTruthy p.codeExecutionResult then [{ codeExecutionResult := p.codeExecutionResult : Chunk }] else []) ++
      rest) []) ++
  (if extractCodeImages ck ≠ [] then [{ codeExecutionImages := some (extractCodeImages ck) : Chunk }] else []) ++
  (if (ck.parts.filter isTextPart) ≠ [] ∧ textContentOf ck ≠ "" then [{ text := some (textContentOf ck) : Chunk }] else []) ++
  (if extractSources ck ≠ [] then [{ sources := some (extractSources ck) : Chunk }] else [])

/-! ## Persistent Store Adapter (`saveConversations` / `fetchConversations`) -/

/-- The projection `saveConversations` applies to each message before
writing: when a `generatedImages` field is present it is removed by
destructuring; after a JSON round-trip an absent key reads back as
`undefined`, i.e. `none`. -/
def stripGeneratedImages (m : Message) : Message :=
  { m with generatedImages := none }

/-- Per-conversation projection of `saveConversations`. -/
def stripConversation (c : Conversation) : Conversation :=
  { c with messages := c.messages.map stripGeneratedImages }

/-- The adapter `saveConversations` (successful path): a non-empty list is serialized
with generated images stripped; an empty list removes the persisted
record.  The JSON round-trip is modelled as lossless on these records
(all fields are strings, numbers, lists and records thereof). -/
def saveConversations (conversations : List Conversation) :
    Option (List Conversation) :=
  if conversations.isEmpty then none
  else some (conversations.map stripConversation)

/-- The valid model identifiers (`Object.keys(MODELS)`). -/
def MODELS_keys : List String :=
  ["gemini-2.5-pro", "gemini-2.5-flash", "gemini-2.5-flash-lite",
   "gemini-2.5-flash-lite-maps", "gemini-2.5-flash-image"]

/-- The per-conversation coercion `fetchConversations` applies on load:
unknown models fall back to `gemini-2.5-pro`, falsy ids are replaced by
`Date.now().toString()`, absent message lists by `[]` (the embedding's
`messages` field is always a list), falsy titles by `'Untitled Chat'`. -/
def coerceConversation (now : Nat) (c : Conversation) : Conversation :=
  { c with
    id := if c.id == "" then toString now else c.id
    title := if c.title == "" then "Untitled Chat" else c.title
    model := if MODELS_keys.contains c.model then c.model else "gemini-2.5-pro" }

/-- The adapter `fetchConversations`: absent record loads as `[]`; a parsed non-empty
array is mapped through the coercion; an empty array loads as `[]`.
(The corrupt-payload branch discards the record; a stored value produced
by `saveConversations` always parses.) -/
def fetchConversations (storage : Option (List Conversation)) (now : Nat) :
    List Conversation :=
  match storage with
  | none => []
  | some parsed => if parsed.isEmpty then [] else parsed.map (coerceConversation now)

/-! ## Model escalation (`isProSession`, App.tsx) -/

/-- JS `\s` whitespace class, restricted to the ASCII range plus NBSP
(the URL inputs of interest contain only ASCII). -/
def jsWhitespace (c : Char) : Bool :=
  c == ' ' || c == '\t' || c == '\n' || c == '\r' ||
  c == '\x0b' || c == '\x0c' || c == ' '

/-- The character class `[^\s/$.?#]` of the URL regex. -/
def urlClassOk (c : Char) : Bool :=
  !(jsWhitespace c || c == '/' || c == '$' || c == '.' || c == '?' || c == '#')

/-- The `.` of the URL regex: any character except a line terminator. -/
def urlDotOk (c : Char) : Bool :=
  !(c == '\n' || c == '\r' || c == ' ' || c == ' ')

/-- Does the regex `https?:\/\/[^\s\/$.?#].[^\s]*` match at the head of
the character list?  (`[^\s]*` matches the empty string, so a match needs
`http`, an optional `s`, `://`, one class character and one further
non-terminator character.) -/
def urlMatchAtHead : List Char → Bool
  | 'h' :: 't' :: 't' :: 'p' :: 's' :: ':' :: '/' :: '/' :: c1 :: c2 :: _ =>
      urlClassOk c1 && urlDotOk c2
  | 'h' :: 't' :: 't' :: 'p' :: ':' :: '/' :: '/' :: c1 :: c2 :: _ =>
      urlClassOk c1 && urlDotOk c2
  | _ => false

/-- Search every position for a match. -/
def urlMatchSomewhere : List Char → Bool
  | [] => false
  | c :: rest => urlMatchAtHead (c :: rest) || urlMatchSomewhere rest

/-- The check `urlRegex.test(text)` of `mutationFn` (the regex object is freshly
created per call, so the `g` flag carries no state). -/
def hasUrl (text : String) : Bool :=
  urlMatchSomewhere text.data

/-- The flag `requiresProModelNow = files.length > 0 || hasUrl` of `mutationFn`. -/
def requiresProModelNow (text : String) (numFiles : Nat) : Bool :=
  decide (numFiles > 0) || hasUrl text

/-- Target-model resolution of `mutationFn`: the image model is always
used as-is; otherwise an active or newly required pro session resolves to
`gemini-2.5-pro`, else the selected model. -/
def resolveTargetModel (selectedModel : String) (isProSession : Bool)
    (text : String) (numFiles : Nat) : String :=
  if selectedModel == "gemini-2.5-flash-image" then "gemini-2.5-flash-image"
  else if isProSession || requiresProModelNow text numFiles then "gemini-2.5-pro"
  else selectedModel

/-- The App-level state that the escalation logic reads and writes:
the global `isProSession` flag, the current `selectedModel`, the active
conversation id and the conversation list (id and model only). -/
structure EscState where
  isProSession : Bool
  selectedModel : String
  activeId : String
  convs : List (String × String)
deriving DecidableEq, Repr

/-- Effect of one send on the escalation state (`mutationFn`:
`if (requiresProModelNow && !isProSession) setIsProSession(true)`),
together with the model that send resolves to. -/
def escSend (s : EscState) (text : String) (numFiles : Nat) : EscState × String :=
  ({ s with isProSession := s.isProSession || requiresProModelNow text numFiles },
   resolveTargetModel s.selectedModel s.isProSession text numFiles)

/-- In `handleNewChat` a fresh conversation is created with the currently
selected model, becomes active, and `setIsProSession(false)` resets the
global escalation flag. -/
def escNewChat (s : EscState) (newId : String) : EscState :=
  { s with convs := (newId, s.selectedModel) :: s.convs,
           activeId := newId, isProSession := false }

/-- In `handleSelectConversation`, switching to an existing conversation
updates the active id and the selected model but leaves `isProSession`
untouched. -/
def escSelectConversation (s : EscState) (id : String) : EscState :=
  match s.convs.find? (fun p => p.1 == id) with
  | some p => { s with activeId := id, selectedModel := p.2 }
  | none => s

/-! ## Streaming Coordinator state machine (App.tsx)

The send lifecycle: `handleSendMessage` (synchronous guards, inserting
the optimistic user message and the streaming placeholder via
`sendMessageMutation.onMutate`), the chunk callbacks of `mutationFn`, and
the completion callbacks `onSuccess` / `onError` followed by `onSettled`.
Conversation-title updates are omitted: they rewrite only the `title`
field of a conversation and touch no message.  The model assumes the
credential is set (`apiKey !== null`) and that the conversations query
has been populated (`getQueryData` is never `undefined` after load). -/

/-- The context captured for one in-flight send: the target conversation
id (captured both by `mutationFn` and `onMutate`), the pre-send snapshot
`previousConversations` taken by `onMutate` before the optimistic insert,
the start time, and the validated files handed to `mutationFn`. -/
structure PendingSend where
  conversationId : String
  previousConversations : List Conversation
  startTime : Nat
  sentFiles : List SimFile
deriving DecidableEq, Repr

/-- The App component state the coordinator reads and writes:
the conversations query cache, `activeConversationId`,
`activeStreamingRef.current`, `isLoading`, `fileErrors`, the persisted
store, the in-flight send (at most one, see `handleSendMessage`'s guards),
and a counter of mutations started (for the no-transport-on-rejection
observations; transport work happens only inside a started mutation). -/
structure AppState where
  conversations : List Conversation
  activeConversationId : Option String
  activeStreaming : Option String
  isLoading : Bool
  fileErrors : List String
  storage : Option (List Conversation)
  pending : Option PendingSend
  startedSends : Nat
deriving DecidableEq, Repr

/-- Outcome of a `handleSendMessage` call. -/
inductive SendOutcome where
  | rejectedFiles
  | rejectedNoConversation
  | rejectedBusy
  | started
deriving DecidableEq, Repr

/-- The user-facing concurrency-guard message set by `handleSendMessage`. -/
def pleaseWaitMsg : String :=
  "Please wait for the current message to finish before sending another."

/-- The optimistic user message built by `handleSendMessage`. -/
def mkUserMessage (now : Nat) (text : String) (validFiles : List SimFile) : Message :=
  { id := toString now
    sender := Sender.user
    text := text
    timestamp := getFormattedTimestamp now
    files := if validFiles.isEmpty then none
      else some (validFiles.map fun f => ⟨"", f.mime, f.name⟩) }

/-- The streaming placeholder built by `handleSendMessage`: empty text,
empty thoughts, empty timestamp, id suffixed `-ai`. -/
def mkAiPlaceholder (now : Nat) : Message :=
  { id := toString now ++ "-ai"
    sender := Sender.ai
    text := ""
    thoughts := some ""
    timestamp := "" }

/-- The optimistic insert of `sendMessageMutation.onMutate`: find the
target conversation, replace its messages when it still holds only the
initial greeting, otherwise append, and move it to the front
(`splice` + `unshift`).  When the id is not found (`findIndex === -1`)
no insert happens. -/
def onMutateInsert (convos : List Conversation) (targetId : String)
    (userMessage aiPlaceholder : Message) : List Conversation :=
  let idx := convos.findIdx fun c => c.id == targetId
  match convos[idx]? with
  | none => convos
  | some convo =>
    let isInitialState := match convo.messages with
      | m :: _ => strStartsWith m.id "initial"
      | [] => false
    let newMessages := if isInitialState then [userMessage, aiPlaceholder]
      else convo.messages ++ [userMessage, aiPlaceholder]
    { convo with messages := newMessages } :: convos.eraseIdx idx

/-- The handler `handleSendMessage(text, files)` down to and including the
synchronous part of `mutate` (`onMutate`): validation, the missing-
conversation guard, the cross-conversation streaming guard, then
`setIsLoading(true)`, `activeStreamingRef.current = target` and the
optimistic insert.  Returns the new state and the observable outcome. -/
def handleSendMessage (s : AppState) (now : Nat) (text : String)
    (files : List SimFile) : AppState × SendOutcome :=
  let vr := validateFiles files
  if !vr.errors.isEmpty then
    ({ s with fileErrors := vr.errors }, SendOutcome.rejectedFiles)
  else
    let s := { s with fileErrors := [] }
    match s.activeConversationId with
    | none => (s, SendOutcome.rejectedNoConversation)
    | some targetId =>
      match s.conversations.find? (fun c => c.id == targetId) with
      | none => (s, SendOutcome.rejectedNoConversation)
      | some _ =>
        if s.activeStreaming ≠ none ∧ s.activeStreaming ≠ some targetId then
          ({ s with fileErrors := [pleaseWaitMsg] }, SendOutcome.rejectedBusy)
        else
          let userMessage := mkUserMessage now text vr.valid
          let aiPlaceholder := mkAiPlaceholder now
          ({ s with
              conversations := onMutateInsert s.conversations targetId userMessage aiPlaceholder
              activeStreaming := some targetId
              isLoading := true
              pending := some ⟨targetId, s.conversations, now, vr.valid⟩
              startedSends := s.startedSends + 1 },
           SendOutcome.started)

/-- A chunk callback firing during the in-flight mutation: routed to
`updateStreamingMessage` only if the global streaming token still points
at the captured conversation. -/
def stepChunk (s : AppState) (c : Chunk) : AppState :=
  match s.pending with
  | none => s
  | some p =>
    if s.activeStreaming == some p.conversationId then
      { s with conversations := updateStreamingMessage s.conversations p.conversationId c }
    else s

/-- A save committed through `updateConversationsMutation`:
the query cache is set to the list and the persisted store to its
stripped projection (empty list removes the record). -/
def commitSave (s : AppState) (convos : List Conversation) : AppState :=
  { s with conversations := convos, storage := saveConversations convos }

/-- The finalization map of `onSuccess`: set usage metadata, thinking
time and the completion timestamp on every message of the target
conversation whose id ends in `-ai` and whose timestamp is empty. -/
def finalizeMessage (usage : Option UsageMetadata) (elapsed : Nat) (now : Nat)
    (m : Message) : Message :=
  if isStreamingTarget m then
    { m with usageMetadata := usage, thinkingTime := some elapsed,
             timestamp := getFormattedTimestamp now }
  else m

/-- The callback `onSettled`: release the streaming token iff it still points at the
mutation's conversation, stop loading, and drop the in-flight record. -/
def settle (s : AppState) (p : PendingSend) : AppState :=
  { s with
      activeStreaming := if s.activeStreaming == some p.conversationId then none
        else s.activeStreaming
      isLoading := false
      pending := none }

/-- The callbacks `onSuccess` + `onSettled` for a mutation resolving with the given
usage metadata: the placeholder is finalized and persisted **only when
`result.usageMetadata` is present**; otherwise `onSuccess` does nothing. -/
def stepSuccess (s : AppState) (usage : Option UsageMetadata) (now : Nat) : AppState :=
  match s.pending with
  | none => s
  | some p =>
    let s' := match usage with
      | some u =>
        let updated := s.conversations.map fun convo =>
          if convo.id == p.conversationId then
            let fins := convo.messages.map (finalizeMessage (some u) (now - p.startTime) now)
            { convo with messages := fins }
          else convo
        commitSave s updated
      | none => s
    settle s' p

/-- The credential-specific error message of `onError`. -/
def invalidKeyMsg : String :=
  "The License Key you provided is not valid. Please go to settings to update it."

/-- The generic failure message of `onError`. -/
def genericErrorMsg : String :=
  "Sorry, I encountered an unexpected error. Please try again."

/-- The message selection of `onError`: credential-specific iff the error
message contains a known credential-rejection signature. -/
def errorMessageFor (err : String) : String :=
  if strContains err "API_KEY_INVALID" || strContains err "API key not valid" then
    invalidKeyMsg
  else genericErrorMsg

/-- The error-resolution map of `onError`: clear the reasoning trace, set
the error text and the completion timestamp on every message of the
target conversation whose id ends in `-ai` and whose timestamp is empty. -/
def errorFinalizeMessage (errMsg : String) (now : Nat) (m : Message) : Message :=
  if isStreamingTarget m then
    { m with thoughts := some "", text := errMsg,
             timestamp := getFormattedTimestamp now }
  else m

/-- The callbacks `onError` + `onSettled`: roll the query cache back to the pre-send
snapshot, then apply the error-resolution map **to that rolled-back
snapshot** (the code reads `getQueryData` immediately after the rollback)
and persist the result. -/
def stepError (s : AppState) (err : String) (now : Nat) : AppState :=
  match s.pending with
  | none => s
  | some p =>
    let rolledBack := p.previousConversations
    let errMsg := errorMessageFor err
    let updated := rolledBack.map fun convo =>
      if convo.id == p.conversationId then
        { convo with messages := convo.messages.map (errorFinalizeMessage errMsg now) }
      else convo
    settle (commitSave s updated) p

/-- The ways a send can be triggered in the UI: through `ChatInput`
(which calls `onSendMessage` only when `!isLoading`, ChatInput.tsx line
91, with non-blank text or files) or through a suggestion click, which is
rendered only while the active conversation has no user message
(`showSuggestions`, App.tsx lines 664–667 and ChatMessage.tsx line 723).
`text.trim() !== ''` is expressed as "some character is not whitespace". -/
def canInvokeSend (s : AppState) (text : String) (files : List SimFile) : Bool :=
  (!s.isLoading && ((text.data.any fun ch => !jsWhitespace ch) || !files.isEmpty)) ||
  (match s.activeConversationId with
   | some id =>
     match s.conversations.find? (fun c => c.id == id) with
     | some c => c.messages.countP (fun m => m.sender == Sender.user) == 0
     | none => false
   | none => false)

/-- One observable event of the send lifecycle. -/
inductive CoordEvent where
  | send (now : Nat) (text : String) (files : List SimFile)
  | chunk (c : Chunk)
  | success (usage : Option UsageMetadata) (now : Nat)
  | failure (err : String) (now : Nat)
deriving Repr

/-- Interpretation of one event.  A `send` fires only when one of the UI
paths can invoke it (`canInvokeSend`); the guard is decidable. -/
def execAction (s : AppState) : CoordEvent → AppState
  | CoordEvent.send now text files =>
      if canInvokeSend s text files then (handleSendMessage s now text files).1 else s
  | CoordEvent.chunk c => stepChunk s c
  | CoordEvent.success usage now => stepSuccess s usage now
  | CoordEvent.failure err now => stepError s err now

/-- Interpretation of an event trace. -/
def execTrace (s : AppState) (acts : List CoordEvent) : AppState :=
  acts.foldl execAction s

/-! ## C7 — cache supersession and idempotent teardown -/

/-- C7: when a new context cache is created while another handle is
active, exactly one `deleteCache` call is issued for the old handle; the
local handle is cleared (set to null, even if the deletion throws — the
`finally` block runs either way) before being replaced by the new handle;
and teardown is idempotent — a second teardown performs no deletion. -/
theorem cache_supersession_exactly_one_delete (s : CacheState)
    (old newCache : String) (h : s.activeCache = some old) :
    (supersedeCache s newCache).deleteCalls = s.deleteCalls ++ [old] ∧
    (supersedeCachePhase1 s).activeCache = none ∧
    (supersedeCache s newCache).activeCache = some newCache ∧
    (∀ t : CacheState, cleanupActiveCache (cleanupActiveCache t) = cleanupActiveCache t) ∧
    (∀ t : CacheState, t.activeCache = none →
      (cleanupActiveCache t).deleteCalls = t.deleteCalls) := by
  refine ⟨?_, ?_, ?_, ?_, ?_⟩
  · simp [supersedeCache, supersedeCachePhase1, h]
  · simp [supersedeCachePhase1, h]
  · simp [supersedeCache, supersedeCachePhase1, h]
  · intro t
    unfold cleanupActiveCache
    rcases t with ⟨ai, cache, calls⟩
    cases ai <;> cases cache <;> simp
  · intro t ht
    unfold cleanupActiveCache
    rcases t with ⟨ai, cache, calls⟩
    cases ai <;> simp_all

/-- Witness for C7 at a concrete state holding cache `"c1"`. -/
theorem cache_supersession_exactly_one_delete_witness :
    (supersedeCache ⟨true, some "c1", []⟩ "c2").deleteCalls = [] ++ ["c1"] ∧
    (supersedeCachePhase1 ⟨true, some "c1", []⟩).activeCache = none ∧
    (supersedeCache ⟨true, some "c1", []⟩ "c2").activeCache = some "c2" ∧
    (∀ t : CacheState, cleanupActiveCache (cleanupActiveCache t) = cleanupActiveCache t) ∧
    (∀ t : CacheState, t.activeCache = none →
      (cleanupActiveCache t).deleteCalls = t.deleteCalls) :=
  cache_supersession_exactly_one_delete ⟨true, some "c1", []⟩ "c1" "c2" rfl

/-! ## C6 — persistence strips generated images and nothing else -/

/-- C6: after a save/load round-trip the conversation list has the same
length, and every message reads back with an absent generated-image list
and every other field unchanged. -/
theorem save_load_strips_generated_images (convos : List Conversation) (now : Nat)
    (i j : Nat) (hi : i < convos.length)
    (hj : j < ((convos.get ⟨i, hi⟩).messages).length) :
    (fetchConversations (saveConversations convos) now).length = convos.length ∧
    ∃ (hi' : i < (fetchConversations (saveConversations convos) now).length)
      (hj' : j < (((fetchConversations (saveConversations convos) now).get ⟨i, hi'⟩).messages).length),
      ((fetchConversations (saveConversations convos) now).get ⟨i, hi'⟩).messages.get ⟨j, hj'⟩ =
        { (convos.get ⟨i, hi⟩).messages.get ⟨j, hj⟩ with generatedImages := none } := by
  have hne : convos.isEmpty = false := by
    cases convos with
    | nil => exact absurd hi (by simp)
    | cons a l => rfl
  have hload : fetchConversations (saveConversations convos) now =
      (convos.map stripConversation).map (coerceConversation now) := by
    simp [fetchConversations, saveConversations, hne]
  have hmsg : ∀ c : Conversation,
      (coerceConversation now (stripConversation c)).messages =
        c.messages.map stripGeneratedImages := by
    intro c; rfl
  constructor
  · simp [hload]
  · have hi' : i < (fetchConversations (saveConversations convos) now).length := by
      simpa [hload] using hi
    refine ⟨hi', ?_⟩
    have hget : (fetchConversations (saveConversations convos) now).get ⟨i, hi'⟩ =
        coerceConversation now (stripConversation (convos.get ⟨i, hi⟩)) := by
      simp [hload, List.get_eq_getElem, List.getElem_map]
    have h1 : ((fetchConversations (saveConversations convos) now).get ⟨i, hi'⟩).messages =
        (convos.get ⟨i, hi⟩).messages.map stripGeneratedImages := by
      rw [hget, hmsg]
    have hj' : j < (((fetchConversations (saveConversations convos) now).get ⟨i, hi'⟩).messages).length := by
      rw [h1]; simpa using hj
    refine ⟨hj', ?_⟩
    simp only [List.get_eq_getElem] at h1 ⊢
    simp only [h1, List.getElem_map]
    rfl

/-- The message of the C6 witness input: it carries a generated image. -/
def witnessMsgC6 : Message :=
  { id := "1-ai", sender := Sender.ai, text := "done", timestamp := "@9",
    generatedImages := some [⟨"b64", "image/png"⟩] }

/-- Concrete input for the C6 witness: one conversation whose only
message carries a generated image. -/
def witnessConvosC6 : List Conversation :=
  [⟨"A", "T", [witnessMsgC6], "gemini-2.5-pro"⟩]

/-- Witness for C6 at `witnessConvosC6`. -/
theorem save_load_strips_generated_images_witness :
    (fetchConversations (saveConversations witnessConvosC6) 0).length = witnessConvosC6.length ∧
    ∃ (hi' : 0 < (fetchConversations (saveConversations witnessConvosC6) 0).length)
      (hj' : 0 < (((fetchConversations (saveConversations witnessConvosC6) 0).get ⟨0, hi'⟩).messages).length),
      ((fetchConversations (saveConversations witnessConvosC6) 0).get ⟨0, hi'⟩).messages.get ⟨0, hj'⟩ =
        { (witnessConvosC6.get ⟨0, by simp [witnessConvosC6]⟩).messages.get
            ⟨0, by simp [witnessConvosC6]⟩ with generatedImages := none } :=
  save_load_strips_generated_images witnessConvosC6 0 0 0
    (by simp [witnessConvosC6]) (by simp [witnessConvosC6])

/-! ## Helper lemmas for the coordinator invariant -/

/-- A string extended by `"-ai"` ends with `"-ai"`. -/
theorem strEndsWith_append_ai (s : String) : strEndsWith (s ++ "-ai") "-ai" = true := by
  simp only [strEndsWith, String.data_append, List.isSuffixOf_iff_suffix]
  exact List.suffix_append _ _

/-- Erasing an index commutes with `map`. -/
theorem map_eraseIdx_comm {α β : Type} (f : α → β) :
    ∀ (l : List α) (i : Nat), (l.eraseIdx i).map f = (l.map f).eraseIdx i := by
  intro l
  induction l with
  | nil => intro i; rfl
  | cons a t ih =>
    intro i
    cases i with
    | zero => rfl
    | succ n => simpa using ih n

/-- In a list with pairwise-distinct images, the element at position `i`
does not occur in the list with position `i` erased. -/
theorem nodup_getElem_not_mem_eraseIdx {α : Type} [DecidableEq α] :
    ∀ (l : List α) (i : Nat) (_ : l.Nodup) (hi : i < l.length),
      l.get ⟨i, hi⟩ ∉ l.eraseIdx i := by
  intro l
  induction l with
  | nil => intro i _ hi; exact absurd hi (by simp)
  | cons a t ih =>
    intro i hnd hi
    cases i with
    | zero =>
      simpa using (List.nodup_cons.1 hnd).1
    | succ n =>
      have hn : n < t.length := by simpa using hi
      have hnd' := (List.nodup_cons.1 hnd).2
      have hmem : t.get ⟨n, hn⟩ ∈ t := List.get_mem t _ hn
      have hne : t.get ⟨n, hn⟩ ≠ a := by
        intro h
        exact (List.nodup_cons.1 hnd).1 (h ▸ hmem)
      intro hmem'
      simp only [List.eraseIdx, List.mem_cons] at hmem'
      rcases hmem' with h | h
      · exact hne h
      · exact ih n hnd' hn h

/-- Lookup and index search agree on the first match. -/
theorem getElem?_findIdx_of_find? {α : Type} (p : α → Bool) :
    ∀ (l : List α) (a : α), l.find? p = some a →
      l[l.findIdx p]? = some a ∧ l.findIdx p < l.length := by
  intro l
  induction l with
  | nil => intro a h; simp [List.find?] at h
  | cons x t ih =>
    intro a h
    by_cases hx : p x
    · simp [List.find?, hx] at h
      subst h
      simp [List.findIdx_cons, hx]
    · simp only [List.find?, hx] at h
      simp only [Bool.false_eq_true, not_false_eq_true] at hx
      rcases ih a h with ⟨h1, h2⟩
      refine ⟨?_, ?_⟩
      · simpa [List.findIdx_cons, hx] using h1
      · simpa [List.findIdx_cons, hx] using Nat.succ_lt_succ h2

/-- Distinct images under `f` force equality of list members. -/
theorem eq_of_mem_of_nodup_map {α β : Type} (f : α → β) :
    ∀ (l : List α), (l.map f).Nodup →
      ∀ a b, a ∈ l → b ∈ l → f a = f b → a = b := by
  intro l
  induction l with
  | nil => intro _ a b ha; simp at ha
  | cons x t ih =>
    intro hnd a b ha hb hfab
    simp only [List.map_cons, List.nodup_cons] at hnd
    rcases List.mem_cons.1 ha with ha' | ha' <;>
      rcases List.mem_cons.1 hb with hb' | hb'
    · rw [ha', hb']
    · exfalso
      apply hnd.1
      have hmem : f b ∈ t.map f := List.mem_map_of_mem f hb'
      rw [← ha', hfab]
      exact hmem
    · exfalso
      apply hnd.1
      have hmem : f a ∈ t.map f := List.mem_map_of_mem f ha'
      rw [← hb', ← hfab]
      exact hmem
    · exact ih hnd.2 a b ha' hb' hfab

/-! ## Invariant of the coordinator state machine -/

/-- Number of messages with an empty completion timestamp. -/
def emptyTsCount (c : Conversation) : Nat :=
  c.messages.countP fun m => m.timestamp == ""

/-- Number of messages with `sender = user`. -/
def userMsgCount (c : Conversation) : Nat :=
  c.messages.countP fun m => m.sender == Sender.user

/-- Number of messages with `sender = ai` and an empty timestamp — the
quantity the specification bounds. -/
def aiEmptyCount (c : Conversation) : Nat :=
  c.messages.countP fun m => m.sender == Sender.ai && m.timestamp == ""

/-- Reachable-state shape of a message: only streaming placeholders have
an empty timestamp, and they carry `sender = ai` and an id ending in
`-ai` (both are set together at creation in `handleSendMessage`). -/
def wfMessage (m : Message) : Prop :=
  m.timestamp = "" → m.sender = Sender.ai ∧ strEndsWith m.id "-ai" = true

/-- A snapshot in which no message is streaming, every message is
well-shaped, and conversation ids are pairwise distinct. -/
def cleanConvos (l : List Conversation) : Prop :=
  (∀ cv ∈ l, emptyTsCount cv = 0 ∧ ∀ m ∈ cv.messages, wfMessage m) ∧
  (l.map Conversation.id).Nodup

/-- Relation between the in-flight record, the streaming token and the
snapshot: while a send is in flight the token points at its conversation
and the captured pre-send snapshot is clean; with no send in flight the
token is released. -/
def pendingInv (s : AppState) : Prop :=
  match s.pending with
  | some p => s.activeStreaming = some p.conversationId ∧
      cleanConvos p.previousConversations
  | none => s.activeStreaming = none

/-- The inductive invariant of the send lifecycle. -/
def CoordInv (s : AppState) : Prop :=
  (∀ cv ∈ s.conversations, ∀ m ∈ cv.messages, wfMessage m) ∧
  (∀ cv ∈ s.conversations, emptyTsCount cv = 0 ∨
    (emptyTsCount cv = 1 ∧ s.isLoading = true ∧
     s.activeStreaming = some cv.id ∧ 1 ≤ userMsgCount cv)) ∧
  (s.conversations.map Conversation.id).Nodup ∧
  s.pending.isSome = s.isLoading ∧
  pendingInv s

/-- The merge `applyChunkToMessage` never touches id, sender or timestamp. -/
theorem applyChunk_preserves_core (m : Message) (c : Chunk) :
    (applyChunkToMessage m c).id = m.id ∧
    (applyChunkToMessage m c).sender = m.sender ∧
    (applyChunkToMessage m c).timestamp = m.timestamp := by
  unfold applyChunkToMessage
  exact ⟨rfl, rfl, rfl⟩

/-- The message map inside `updateStreamingMessage` preserves id, sender
and timestamp of every message. -/
theorem patchMsg_preserves_core (c : Chunk) (m : Message) :
    ((if isStreamingTarget m then applyChunkToMessage m c else m).id = m.id) ∧
    ((if isStreamingTarget m then applyChunkToMessage m c else m).sender = m.sender) ∧
    ((if isStreamingTarget m then applyChunkToMessage m c else m).timestamp = m.timestamp) := by
  by_cases h : isStreamingTarget m
  · simpa [h] using applyChunk_preserves_core m c
  · simp [h]

/-- The patch `updateStreamingMessage` changes no conversation id and no message
count that depends only on sender and timestamp. -/
theorem updateStreamingMessage_counts (convos : List Conversation)
    (convId : String) (c : Chunk) :
    (updateStreamingMessage convos convId c).map Conversation.id =
      convos.map Conversation.id ∧
    ∀ cv ∈ updateStreamingMessage convos convId c,
      ∃ cv₀ ∈ convos, cv.id = cv₀.id ∧
        emptyTsCount cv = emptyTsCount cv₀ ∧
        userMsgCount cv = userMsgCount cv₀ ∧
        ((∀ m ∈ cv₀.messages, wfMessage m) → ∀ m ∈ cv.messages, wfMessage m) := by
  constructor
  · unfold updateStreamingMessage
    rw [List.map_map]
    apply List.map_congr_left
    intro cv _
    by_cases h : cv.id = convId <;> simp [h]
  · intro cv hcv
    unfold updateStreamingMessage at hcv
    rcases List.mem_map.1 hcv with ⟨cv₀, hmem, hEq⟩
    refine ⟨cv₀, hmem, ?_⟩
    by_cases h : cv₀.id = convId
    · subst hEq
      simp only [h, beq_self_eq_true, if_true]
      refine ⟨trivial, ?_, ?_, ?_⟩
      · unfold emptyTsCount
        simp only
        rw [List.countP_map]
        apply List.countP_congr
        intro m _
        simp [Function.comp, (patchMsg_preserves_core c m).2.2]
      · unfold userMsgCount
        simp only
        rw [List.countP_map]
        apply List.countP_congr
        intro m _
        simp [Function.comp, (patchMsg_preserves_core c m).2.1]
      · intro hwf m hm
        rcases List.mem_map.1 hm with ⟨m₀, hm₀, hmEq⟩
        intro hts
        rcases patchMsg_preserves_core c m₀ with ⟨hid, hsd, hts'⟩
        have hts0 : m₀.timestamp = "" := by rw [← hts', hmEq]; exact hts
        rcases hwf m₀ hm₀ hts0 with ⟨hai, hend⟩
        subst hmEq
        rw [hid, hsd]
        exact ⟨hai, hend⟩
    · subst hEq
      simp [h]

/-- Under well-shapedness, the `onSuccess` finalization map leaves no
message with an empty timestamp. -/
theorem finalize_count_zero (usage : Option UsageMetadata) (e n : Nat)
    (msgs : List Message) (hwf : ∀ m ∈ msgs, wfMessage m) :
    (msgs.map (finalizeMessage usage e n)).countP (fun m => m.timestamp == "") = 0 := by
  rw [List.countP_map]
  apply List.countP_eq_zero.2
  intro m hm
  simp only [Function.comp]
  by_cases h : isStreamingTarget m
  · simp [finalizeMessage, h, getFormattedTimestamp_ne_empty n]
  · rw [Bool.not_eq_true] at h
    simp only [finalizeMessage, h, Bool.false_eq_true, if_false, beq_iff_eq]
    intro hts
    rcases hwf m hm hts with ⟨_, hend⟩
    rw [Bool.eq_false_iff] at h
    exact h (by simp [isStreamingTarget, hend, hts])

/-- The `onSuccess` finalization map preserves well-shapedness, ids and
senders (it only fills timestamp, usage and elapsed time). -/
theorem finalize_preserves (usage : Option UsageMetadata) (e n : Nat) (m : Message) :
    (finalizeMessage usage e n m).id = m.id ∧
    (finalizeMessage usage e n m).sender = m.sender ∧
    (wfMessage m → wfMessage (finalizeMessage usage e n m)) := by
  unfold finalizeMessage
  by_cases h : isStreamingTarget m
  · refine ⟨by simp [h], by simp [h], ?_⟩
    intro _
    intro hts
    exact absurd hts (by simp [h, getFormattedTimestamp_ne_empty n])
  · exact ⟨by simp [h], by simp [h], fun hw => by simpa [h] using hw⟩

/-- On a conversation with no streaming message the `onError`
finalization map is the identity. -/
theorem errorFinalize_id_of_clean (errMsg : String) (n : Nat)
    (msgs : List Message) (hclean : msgs.countP (fun m => m.timestamp == "") = 0) :
    msgs.map (errorFinalizeMessage errMsg n) = msgs := by
  have hmap : msgs.map (errorFinalizeMessage errMsg n) = msgs.map id := by
    apply List.map_congr_left
    intro m hm
    have hts : ¬(m.timestamp == "") = true := List.countP_eq_zero.1 hclean m hm
    have htgt : isStreamingTarget m = false := by
      simp only [beq_iff_eq] at hts
      simp [isStreamingTarget, hts]
    simp [errorFinalizeMessage, htgt]
  simpa using hmap

/-- The invariant `CoordInv` does not mention `fileErrors`. -/
theorem coordInv_fileErrors (s : AppState) (e : List String) (h : CoordInv s) :
    CoordInv { s with fileErrors := e } := h

/-- In a state that accepts a send (guards passed), every conversation is
free of streaming placeholders. -/
theorem accept_state_all_clean (s : AppState) (text : String) (files : List SimFile)
    (targetId : String) (cv0 : Conversation)
    (hinv : CoordInv s)
    (hcan : canInvokeSend s text files = true)
    (hactive : s.activeConversationId = some targetId)
    (hfind : s.conversations.find? (fun c => c.id == targetId) = some cv0)
    (hguard : s.activeStreaming = none ∨ s.activeStreaming = some targetId) :
    ∀ cv ∈ s.conversations, emptyTsCount cv = 0 := by
  obtain ⟨hwf, hcount, hnodup, hpend, hpinv⟩ := hinv
  rcases hguard with href | href
  · -- no stream in flight: `pendingInv` forces `pending = none`, so
    -- `isLoading = false` and the count disjunction collapses.
    have hpnone : s.pending = none := by
      cases hp : s.pending with
      | none => rfl
      | some p =>
        exfalso
        have := hpinv
        unfold pendingInv at this
        rw [hp] at this
        rw [this.1] at href
        exact Option.noConfusion href
    have hload : s.isLoading = false := by
      rw [← hpend, hpnone]
      rfl
    intro cv hcv
    rcases hcount cv hcv with h0 | ⟨_, hl, _, _⟩
    · exact h0
    · rw [hload] at hl
      exact Bool.noConfusion hl
  · -- a stream is in flight on the target conversation itself: the
    -- invoking path must be a suggestion click, so the target has no
    -- user message, contradicting the count disjunction for it.
    have hpsome : ∃ p, s.pending = some p := by
      cases hp : s.pending with
      | none =>
        exfalso
        have := hpinv
        unfold pendingInv at this
        rw [hp] at this
        rw [this] at href
        exact Option.noConfusion href
      | some p => exact ⟨p, rfl⟩
    have hload : s.isLoading = true := by
      rcases hpsome with ⟨p, hp⟩
      rw [← hpend, hp]
      rfl
    have huser0 : userMsgCount cv0 = 0 := by
      unfold canInvokeSend at hcan
      rw [hload, hactive] at hcan
      simp only [hfind, Bool.not_true, Bool.false_and, Bool.false_or] at hcan
      simpa [userMsgCount] using hcan
    have hid0 : cv0.id = targetId := by
      simpa using List.find?_some hfind
    have hmem0 : cv0 ∈ s.conversations := List.mem_of_find?_eq_some hfind
    intro cv hcv
    rcases hcount cv hcv with h0 | ⟨_, _, href', huser⟩
    · exact h0
    · exfalso
      rw [href] at href'
      have hideq : cv.id = cv0.id := by
        rw [hid0]
        exact (Option.some.inj href').symm
      have hcveq : cv = cv0 :=
        eq_of_mem_of_nodup_map Conversation.id s.conversations hnodup cv cv0 hcv hmem0 hideq
      rw [hcveq, huser0] at huser
      exact absurd huser (by norm_num)

/-- The messages inserted by the optimistic update: the user message is
timestamped and tagged `user`; the placeholder is empty-timestamped,
tagged `ai`, and its id ends in `-ai`. -/
theorem inserted_message_facts (now : Nat) (text : String) (vf : List SimFile) :
    (mkUserMessage now text vf).timestamp ≠ "" ∧
    (mkUserMessage now text vf).sender = Sender.user ∧
    (mkAiPlaceholder now).timestamp = "" ∧
    (mkAiPlaceholder now).sender = Sender.ai ∧
    strEndsWith (mkAiPlaceholder now).id "-ai" = true ∧
    wfMessage (mkUserMessage now text vf) ∧
    wfMessage (mkAiPlaceholder now) := by
  refine ⟨getFormattedTimestamp_ne_empty now, rfl, rfl, rfl,
    strEndsWith_append_ai _, ?_, ?_⟩
  · intro hts
    exact absurd hts (getFormattedTimestamp_ne_empty now)
  · intro _
    exact ⟨rfl, strEndsWith_append_ai _⟩

/-- Counts of the two inserted messages. -/
theorem inserted_pair_counts (now : Nat) (text : String) (vf : List SimFile) :
    [mkUserMessage now text vf, mkAiPlaceholder now].countP
      (fun m => m.timestamp == "") = 1 ∧
    [mkUserMessage now text vf, mkAiPlaceholder now].countP
      (fun m => m.sender == Sender.user) = 1 := by
  obtain ⟨hu, hus, hp, hps, _, _, _⟩ := inserted_message_facts now text vf
  constructor
  · simp [List.countP_cons, hp, beq_eq_false_iff_ne, hu]
  · simp only [List.countP_cons, List.countP_nil, hus, hps]
    decide

/-- A send event preserves the coordinator invariant. -/
theorem send_preserves_inv (s : AppState) (now : Nat) (text : String)
    (files : List SimFile) (hinv : CoordInv s)
    (hcan : canInvokeSend s text files = true) :
    CoordInv (handleSendMessage s now text files).1 := by
  unfold handleSendMessage
  dsimp only
  split
  · exact coordInv_fileErrors s _ hinv
  · split
    · exact coordInv_fileErrors s [] hinv
    next targetId hactive =>
      split
      · exact coordInv_fileErrors s [] hinv
      next cv0 hfind =>
        split
        · exact coordInv_fileErrors s _ hinv
        next hbusy =>
          -- accepted send
          have hfind' : s.conversations.find? (fun c => c.id == targetId) = some cv0 := hfind
          have hguard : s.activeStreaming = none ∨ s.activeStreaming = some targetId := by
            by_cases h1 : s.activeStreaming = none
            · exact Or.inl h1
            · right
              by_contra h2
              exact hbusy ⟨h1, h2⟩
          have hclean : ∀ cv ∈ s.conversations, emptyTsCount cv = 0 :=
            accept_state_all_clean s text files targetId cv0 hinv hcan hactive hfind' hguard
          obtain ⟨hwf, hcount, hnodup, hpend, hpinv⟩ := hinv
          have hid0 : cv0.id = targetId := by simpa using List.find?_some hfind'
          have hmem0 : cv0 ∈ s.conversations := List.mem_of_find?_eq_some hfind'
          obtain ⟨hget, hlt⟩ := getElem?_findIdx_of_find? (fun c => c.id == targetId)
            s.conversations cv0 hfind'
          obtain ⟨hune, hus, hpts, hps, hpend', hwfu, hwfp⟩ :=
            inserted_message_facts now text (validateFiles files).valid
          obtain ⟨hc1, hc2⟩ := inserted_pair_counts now text (validateFiles files).valid
          set u := mkUserMessage now text (validateFiles files).valid with hu_def
          set ph := mkAiPlaceholder now with hph_def
          set idx := s.conversations.findIdx (fun c => c.id == targetId) with hidx_def
          have hgetE : s.conversations[idx] = cv0 := by
            rcases List.getElem?_eq_some.1 hget with ⟨h, hh⟩
            exact hh
          have hins : onMutateInsert s.conversations targetId u ph =
              { cv0 with messages :=
                  if (match cv0.messages with
                    | m :: _ => strStartsWith m.id "initial"
                    | [] => false) then [u, ph] else cv0.messages ++ [u, ph] } ::
                s.conversations.eraseIdx idx := by
            unfold onMutateInsert
            dsimp only
            rw [hget]
          set newMsgs := (if (match cv0.messages with
              | m :: _ => strStartsWith m.id "initial"
              | [] => false) then [u, ph] else cv0.messages ++ [u, ph]) with hnm_def
          have hcount_new : newMsgs.countP (fun m => m.timestamp == "") = 1 := by
            rw [hnm_def]
            split
            · exact hc1
            · rw [List.countP_append]
              have : cv0.messages.countP (fun m => m.timestamp == "") = 0 := hclean cv0 hmem0
              rw [this, hc1]
          have huser_new : 1 ≤ newMsgs.countP (fun m => m.sender == Sender.user) := by
            rw [hnm_def]
            split
            · rw [hc2]
            · rw [List.countP_append, hc2]
              omega
          have hwf_new : ∀ m ∈ newMsgs, wfMessage m := by
            rw [hnm_def]
            intro m hm
            split at hm
            · rcases List.mem_cons.1 hm with h | h
              · rw [h]; exact hwfu
              · rcases List.mem_cons.1 h with h' | h'
                · rw [h']; exact hwfp
                · simp at h'
            · rcases List.mem_append.1 hm with h | h
              · exact hwf cv0 hmem0 m h
              · rcases List.mem_cons.1 h with h' | h'
                · rw [h']; exact hwfu
                · rcases List.mem_cons.1 h' with h'' | h''
                  · rw [h'']; exact hwfp
                  · simp at h''
          -- ids of the erased remainder
          have herase_ids : (s.conversations.eraseIdx idx).map Conversation.id =
              (s.conversations.map Conversation.id).eraseIdx idx :=
            map_eraseIdx_comm Conversation.id s.conversations idx
          have hlt' : idx < (s.conversations.map Conversation.id).length := by
            simpa using hlt
          have hids_idx : (s.conversations.map Conversation.id).get ⟨idx, hlt'⟩ = targetId := by
            simp only [List.get_eq_getElem, List.getElem_map]
            rw [hgetE, hid0]
          have hnotmem : targetId ∉ (s.conversations.map Conversation.id).eraseIdx idx := by
            have := nodup_getElem_not_mem_eraseIdx (s.conversations.map Conversation.id)
              idx hnodup hlt'
            rwa [hids_idx] at this
          have herasemem : ∀ cv ∈ s.conversations.eraseIdx idx, cv ∈ s.conversations := by
            intro cv hcv
            exact (List.eraseIdx_sublist s.conversations idx).mem hcv
          refine ⟨?_, ?_, ?_, rfl, ?_⟩
          · -- well-shapedness
            intro cv hcv
            rw [hins] at hcv
            rcases List.mem_cons.1 hcv with h | h
            · intro m hm
              rw [h] at hm
              exact hwf_new m hm
            · exact hwf cv (herasemem cv h)
          · -- count disjunction
            intro cv hcv
            rw [hins] at hcv
            rcases List.mem_cons.1 hcv with h | h
            · right
              refine ⟨?_, rfl, ?_, ?_⟩
              · rw [h]; exact hcount_new
              · rw [h]
                simp only
                rw [hid0]
              · rw [h]
                exact huser_new
            · left
              exact hclean cv (herasemem cv h)
          · -- id nodup
            rw [hins]
            simp only [List.map_cons]
            rw [herase_ids]
            apply List.nodup_cons.2
            constructor
            · simpa [hid0] using hnotmem
            · exact hnodup.sublist (List.eraseIdx_sublist _ idx)
          · -- pendingInv
            unfold pendingInv
            refine ⟨rfl, ?_, hnodup⟩
            intro cv hcv
            exact ⟨hclean cv hcv, hwf cv hcv⟩

/-- A chunk event preserves the coordinator invariant. -/
theorem chunk_preserves_inv (s : AppState) (c : Chunk) (hinv : CoordInv s) :
    CoordInv (stepChunk s c) := by
  unfold stepChunk
  cases hp : s.pending with
  | none => exact hinv
  | some p =>
    by_cases hg : s.activeStreaming == some p.conversationId
    case neg =>
      simp only [hg, Bool.false_eq_true, if_false]
      exact hinv
    case pos =>
      simp only [hg, if_true]
      obtain ⟨hwf, hcount, hnodup, hpend, hpinv⟩ := hinv
      obtain ⟨hids, hconv⟩ :=
        updateStreamingMessage_counts s.conversations p.conversationId c
      refine ⟨?_, ?_, ?_, ?_, ?_⟩
      · intro cv hcv
        rcases hconv cv hcv with ⟨cv₀, hmem₀, _, _, _, hwf'⟩
        exact hwf' (hwf cv₀ hmem₀)
      · intro cv hcv
        rcases hconv cv hcv with ⟨cv₀, hmem₀, hid, hcnt, husr, _⟩
        rcases hcount cv₀ hmem₀ with h0 | ⟨h1, h2, h3, h4⟩
        · left
          rw [hcnt]
          exact h0
        · right
          dsimp only
          rw [hcnt, hid, husr]
          exact ⟨h1, h2, h3, h4⟩
      · dsimp only
        rw [hids]
        exact hnodup
      · dsimp only
        rw [hp] at hpend
        exact hpend
      · unfold pendingInv at hpinv ⊢
        dsimp only
        rw [hp] at hpinv
        exact hpinv

/-- A success event carrying usage metadata preserves the invariant. -/
theorem success_preserves_inv (s : AppState) (u : UsageMetadata) (now : Nat)
    (hinv : CoordInv s) : CoordInv (stepSuccess s (some u) now) := by
  unfold stepSuccess
  cases hp : s.pending with
  | none => exact hinv
  | some p =>
    obtain ⟨hwf, hcount, hnodup, hpend, hpinv⟩ := hinv
    have hstream : s.activeStreaming = some p.conversationId := by
      unfold pendingInv at hpinv
      rw [hp] at hpinv
      exact hpinv.1
    dsimp only
    unfold settle commitSave
    dsimp only
    rw [hstream]
    simp only [beq_self_eq_true, if_true]
    refine ⟨?_, ?_, ?_, rfl, ?_⟩
    · -- well-shapedness of the finalized snapshot
      intro cv hcv
      rcases List.mem_map.1 hcv with ⟨cv₀, hmem₀, hEq⟩
      subst hEq
      by_cases h : cv₀.id = p.conversationId
      · have hb : (cv₀.id == p.conversationId) = true := by simp [h]
        simp only [hb, if_true]
        intro m hm
        rcases List.mem_map.1 hm with ⟨m₀, hm₀, hmEq⟩
        rw [← hmEq]
        exact (finalize_preserves (some u) _ now m₀).2.2 (hwf cv₀ hmem₀ m₀ hm₀)
      · have hb : (cv₀.id == p.conversationId) = false := by simp [h]
        simp only [hb, Bool.false_eq_true, if_false]
        exact hwf cv₀ hmem₀
    · -- every conversation ends clean
      intro cv hcv
      left
      rcases List.mem_map.1 hcv with ⟨cv₀, hmem₀, hEq⟩
      subst hEq
      by_cases h : cv₀.id = p.conversationId
      · have hb : (cv₀.id == p.conversationId) = true := by simp [h]
        simp only [hb, if_true]
        unfold emptyTsCount
        exact finalize_count_zero (some u) _ now cv₀.messages (hwf cv₀ hmem₀)
      · have hb : (cv₀.id == p.conversationId) = false := by simp [h]
        simp only [hb, Bool.false_eq_true, if_false]
        rcases hcount cv₀ hmem₀ with h0 | ⟨_, _, h3, _⟩
        · exact h0
        · exfalso
          rw [hstream] at h3
          exact h (Option.some.inj h3).symm
    · -- conversation ids unchanged
      have hids : ∀ cv ∈ s.conversations, Conversation.id
          (if cv.id == p.conversationId then
            { cv with messages := cv.messages.map (finalizeMessage (some u) (now - p.startTime) now) }
          else cv) = Conversation.id cv := by
        intro cv _
        by_cases h : cv.id = p.conversationId
        · have hb : (cv.id == p.conversationId) = true := by simp [h]
          simp [hb]
        · have hb : (cv.id == p.conversationId) = false := by simp [h]
          simp [hb]
      have key : ∀ cv ∈ s.conversations, (Conversation.id ∘ fun convo =>
          if convo.id == p.conversationId then
            { convo with messages := convo.messages.map (finalizeMessage (some u) (now - p.startTime) now) }
          else convo) cv = Conversation.id cv := by
        intro cv hcv
        exact hids cv hcv
      dsimp only
      rw [List.map_map, List.map_congr_left key]
      exact hnodup
    · unfold pendingInv
      rfl

/-- A failure event preserves the invariant: the rollback restores the
clean pre-send snapshot, on which the error-finalization map is the
identity. -/
theorem error_preserves_inv (s : AppState) (err : String) (now : Nat)
    (hinv : CoordInv s) : CoordInv (stepError s err now) := by
  unfold stepError
  cases hp : s.pending with
  | none => exact hinv
  | some p =>
    obtain ⟨hwf, hcount, hnodup, hpend, hpinv⟩ := hinv
    have hclean : cleanConvos p.previousConversations := by
      unfold pendingInv at hpinv
      rw [hp] at hpinv
      exact hpinv.2
    have hstream : s.activeStreaming = some p.conversationId := by
      unfold pendingInv at hpinv
      rw [hp] at hpinv
      exact hpinv.1
    have hupd : (p.previousConversations.map fun cv =>
        if cv.id == p.conversationId then
          { cv with messages := cv.messages.map (errorFinalizeMessage (errorMessageFor err) now) }
        else cv) = p.previousConversations := by
      have hcong : ∀ cv ∈ p.previousConversations,
          (if cv.id == p.conversationId then
            { cv with messages := cv.messages.map (errorFinalizeMessage (errorMessageFor err) now) }
          else cv) = id cv := by
        intro cv hcv
        by_cases h : cv.id = p.conversationId
        · have hc0 : emptyTsCount cv = 0 := (hclean.1 cv hcv).1
          unfold emptyTsCount at hc0
          have hb : (cv.id == p.conversationId) = true := by simp [h]
          simp only [hb, if_true, id]
          rw [errorFinalize_id_of_clean _ _ _ hc0]
        · have hb : (cv.id == p.conversationId) = false := by simp [h]
          simp [hb]
      rw [List.map_congr_left hcong, List.map_id]
    dsimp only
    unfold settle commitSave
    dsimp only
    rw [hstream]
    simp only [beq_self_eq_true, if_true]
    rw [hupd]
    refine ⟨?_, ?_, hclean.2, rfl, ?_⟩
    · intro cv hcv
      exact (hclean.1 cv hcv).2
    · intro cv hcv
      left
      exact (hclean.1 cv hcv).1
    · unfold pendingInv
      rfl

/-- Pointwise implication between predicates bounds `countP`. -/
theorem countP_le_countP_of_imp {α : Type} (p q : α → Bool) :
    ∀ l : List α, (∀ a ∈ l, p a = true → q a = true) →
      l.countP p ≤ l.countP q := by
  intro l
  induction l with
  | nil => intro _; simp
  | cons a t ih =>
    intro h
    have ht := ih fun x hx => h x (List.mem_cons_of_mem a hx)
    rw [List.countP_cons, List.countP_cons]
    by_cases hpa : p a = true
    · have hqa := h a (List.mem_cons_self a t) hpa
      simp only [hpa, hqa, if_true]
      omega
    · have hpa' : p a = false := by rwa [Bool.not_eq_true] at hpa
      simp only [hpa', Bool.false_eq_true, if_false]
      by_cases hqa : q a = true
      · simp only [hqa, if_true]
        omega
      · have hqa' : q a = false := by rwa [Bool.not_eq_true] at hqa
        simp only [hqa', Bool.false_eq_true, if_false]
        omega

/-- An event is benign when every successful completion reports usage
metadata (the property the `onSuccess` finalization is conditioned on). -/
def goodEvent : CoordEvent → Bool
  | CoordEvent.success usage _ => usage.isSome
  | _ => true

/-- One benign event preserves the coordinator invariant. -/
theorem execAction_preserves_inv (s : AppState) (a : CoordEvent)
    (hinv : CoordInv s) (hgood : goodEvent a = true) :
    CoordInv (execAction s a) := by
  cases a with
  | send now text files =>
    unfold execAction
    by_cases hcan : canInvokeSend s text files = true
    · simp only [hcan, if_true]
      exact send_preserves_inv s now text files hinv hcan
    · simp only [Bool.not_eq_true] at hcan
      simp only [hcan, Bool.false_eq_true, if_false]
      exact hinv
  | chunk c => exact chunk_preserves_inv s c hinv
  | success usage now =>
    cases usage with
    | none => exact absurd hgood (by simp [goodEvent])
    | some u => exact success_preserves_inv s u now hinv
  | failure err now => exact error_preserves_inv s err now hinv

/-- C1 (amended): starting from an invariant-satisfying state, any
sequence of send-lifecycle events in which every successful completion
carries usage metadata keeps the invariant; in particular every
conversation holds at most one message with `sender = ai` and an empty
completion timestamp.  (Without the usage-metadata proviso the property
fails, see the counterexample.) -/
theorem at_most_one_streaming_placeholder (s : AppState) (acts : List CoordEvent)
    (hinv : CoordInv s) (hgood : ∀ a ∈ acts, goodEvent a = true) :
    CoordInv (execTrace s acts) ∧
    ∀ cv ∈ (execTrace s acts).conversations, aiEmptyCount cv ≤ 1 := by
  have hfinal : CoordInv (execTrace s acts) := by
    induction acts generalizing s with
    | nil => exact hinv
    | cons a t ih =>
      have ha : goodEvent a = true := hgood a (List.mem_cons_self a t)
      have ht : ∀ x ∈ t, goodEvent x = true :=
        fun x hx => hgood x (List.mem_cons_of_mem a hx)
      exact ih (execAction s a) (execAction_preserves_inv s a hinv ha) ht
  refine ⟨hfinal, ?_⟩
  intro cv hcv
  have hle : aiEmptyCount cv ≤ emptyTsCount cv := by
    unfold aiEmptyCount emptyTsCount
    apply countP_le_countP_of_imp
    intro m _ hm
    simp only [Bool.and_eq_true] at hm
    exact hm.2
  rcases hfinal.2.1 cv hcv with h0 | ⟨h1, _⟩
  · omega
  · omega

/-- The initial greeting message of a fresh conversation. -/
def freshMsgC1 : Message :=
  { id := "initial-0", sender := Sender.ai, text := "hello", timestamp := "@0" }

/-- A freshly created conversation with no send in flight. -/
def freshStateC1 : AppState :=
  { conversations := [⟨"A", "New Chat", [freshMsgC1], "gemini-2.5-pro"⟩],
    activeConversationId := some "A", activeStreaming := none,
    isLoading := false, fileErrors := [], storage := none, pending := none,
    startedSends := 0 }

/-- The state `freshStateC1` satisfies the coordinator invariant. -/
theorem freshStateC1_inv : CoordInv freshStateC1 := by
  refine ⟨?_, ?_, ?_, rfl, rfl⟩
  · intro cv hcv m hm
    simp only [freshStateC1, List.mem_singleton] at hcv
    subst hcv
    simp only [List.mem_singleton] at hm
    subst hm
    intro hts
    exact absurd hts (by decide)
  · intro cv hcv
    left
    simp only [freshStateC1, List.mem_singleton] at hcv
    subst hcv
    decide
  · decide

/-- Witness for the amended C1 at a concrete state and trace (one send,
one text chunk, one successful completion carrying usage metadata). -/
theorem at_most_one_streaming_placeholder_witness :
    CoordInv (execTrace freshStateC1
      [CoordEvent.send 1 "hi" [], CoordEvent.chunk { text := some "Hi!" },
       CoordEvent.success (some { totalTokenCount := some 5 }) 2]) ∧
    ∀ cv ∈ (execTrace freshStateC1
      [CoordEvent.send 1 "hi" [], CoordEvent.chunk { text := some "Hi!" },
       CoordEvent.success (some { totalTokenCount := some 5 }) 2]).conversations,
      aiEmptyCount cv ≤ 1 :=
  at_most_one_streaming_placeholder freshStateC1
    [CoordEvent.send 1 "hi" [], CoordEvent.chunk { text := some "Hi!" },
     CoordEvent.success (some { totalTokenCount := some 5 }) 2]
    freshStateC1_inv (by decide)

/-- Counterexample to C1 as stated: a send whose generation succeeds
without usage metadata leaves the placeholder unfinalized (`onSuccess`
requires `result.usageMetadata`), and the next send in the same
conversation inserts a second placeholder — the conversation then holds
two messages with `sender = ai` and an empty timestamp at once. -/
theorem two_streaming_placeholders_reachable :
    (execTrace freshStateC1 [CoordEvent.send 1 "hi" [], CoordEvent.success none 2,
      CoordEvent.send 3 "again" []]).conversations.map aiEmptyCount = [2] := by
  decide

/-! ## C2 — concurrency guard rejects cross-conversation sends -/

/-- C2: while the streaming token is held by conversation `a`, a send
targeting a different conversation `b` (with valid files and an existing
target) is rejected synchronously with the "please wait" error; the
repository, the in-flight record, the mutation counter (no transport
work happens outside a started mutation), the persisted store, the token
and the loading flag are all untouched. -/
theorem concurrent_send_rejected_without_transport (s : AppState) (now : Nat)
    (text : String) (files : List SimFile) (a b : String)
    (href : s.activeStreaming = some a)
    (htarget : s.activeConversationId = some b)
    (hne : a ≠ b)
    (hfiles : (validateFiles files).errors = [])
    (hconvo : (s.conversations.find? (fun c => c.id == b)).isSome) :
    handleSendMessage s now text files =
      ({ s with fileErrors := [pleaseWaitMsg] }, SendOutcome.rejectedBusy) ∧
    (handleSendMessage s now text files).1.conversations = s.conversations ∧
    (handleSendMessage s now text files).1.pending = s.pending ∧
    (handleSendMessage s now text files).1.startedSends = s.startedSends ∧
    (handleSendMessage s now text files).1.storage = s.storage ∧
    (handleSendMessage s now text files).1.activeStreaming = s.activeStreaming ∧
    (handleSendMessage s now text files).1.isLoading = s.isLoading := by
  rcases Option.isSome_iff_exists.1 hconvo with ⟨cv0, hfind⟩
  have hmain : handleSendMessage s now text files =
      ({ s with fileErrors := [pleaseWaitMsg] }, SendOutcome.rejectedBusy) := by
    unfold handleSendMessage
    simp only [hfiles, htarget, hfind, href, List.isEmpty_nil, Bool.not_true,
      Bool.false_eq_true, if_false]
    rw [if_pos ⟨by simp, by simpa using hne⟩]
  refine ⟨hmain, ?_, ?_, ?_, ?_, ?_, ?_⟩ <;> rw [hmain]

/-! ## C3 — the failure path never writes the error-state message -/

/-- A user turn already answered before the failing send. -/
def histUserMsg : Message :=
  { id := "u0", sender := Sender.user, text := "earlier question", timestamp := "@0" }

/-- The finalized answer to that turn. -/
def histAiMsg : Message :=
  { id := "100-ai", sender := Sender.ai, text := "earlier answer", timestamp := "@1" }

/-- A conversation with history, about to receive a failing send. -/
def histConv : Conversation :=
  { id := "A", title := "T", messages := [histUserMsg, histAiMsg],
    model := "gemini-2.5-pro" }

/-- App state before the failing send. -/
def errorStateC3 : AppState :=
  { conversations := [histConv], activeConversationId := some "A",
    activeStreaming := none, isLoading := false, fileErrors := [],
    storage := some [histConv], pending := none, startedSends := 0 }

/-- C3 at the failing input: a send followed by a generation failure.
`onError` rolls the cache back to the pre-send snapshot and only then
maps the error-resolution over it — but the rolled-back snapshot contains
no un-timestamped `-ai` message, so the map is the identity: the final
repository equals the pre-send snapshot exactly, the user's message and
the placeholder are gone, no message carries the generic or the
credential error text, no message is finalized at the failure instant,
and what gets persisted is that unchanged snapshot. -/
theorem onError_writes_no_error_message :
    (execTrace errorStateC3 [CoordEvent.send 2 "question" [],
      CoordEvent.failure "boom" 3]).conversations = errorStateC3.conversations ∧
    (execTrace errorStateC3 [CoordEvent.send 2 "question" [],
      CoordEvent.failure "boom" 3]).storage = some [stripConversation histConv] ∧
    (execTrace errorStateC3 [CoordEvent.send 2 "question" [],
      CoordEvent.failure "boom" 3]).conversations.map
        (fun cv => cv.messages.map Message.text) = [["earlier question", "earlier answer"]] ∧
    (execTrace errorStateC3 [CoordEvent.send 2 "question" [],
      CoordEvent.failure "boom" 3]).conversations.all
        (fun cv => cv.messages.all fun m =>
          !(m.text == genericErrorMsg) && !(m.text == invalidKeyMsg) &&
          !(m.timestamp == getFormattedTimestamp 3)) = true := by
  refine ⟨by decide, by decide, by decide, by decide⟩

/-! ## C9 — `patchStreamingMessage` is a total, frame-respecting no-op
when no placeholder exists -/

/-- C9: `updateStreamingMessage` is a total function (it cannot raise);
when the target conversation holds no ai message with an empty timestamp
it returns the repository unchanged; and in every case it leaves other
conversations, user messages and already-finalized messages intact.
The well-shapedness hypothesis (`-ai`-suffixed ids belong to ai
messages) holds in every reachable state, where such ids are only ever
created for placeholders. -/
theorem patchStreamingMessage_noop_and_frame (convos : List Conversation)
    (convId : String) (c : Chunk) (i j : Nat)
    (hwf : ∀ cv ∈ convos, ∀ m ∈ cv.messages,
      strEndsWith m.id "-ai" = true → m.sender = Sender.ai)
    (hi : i < convos.length)
    (hj : j < ((convos.get ⟨i, hi⟩).messages).length) :
    ((∀ cv ∈ convos, cv.id = convId → ∀ m ∈ cv.messages,
        ¬(m.sender = Sender.ai ∧ m.timestamp = "")) →
      updateStreamingMessage convos convId c = convos) ∧
    (updateStreamingMessage convos convId c).length = convos.length ∧
    ∃ (hi' : i < (updateStreamingMessage convos convId c).length),
      ((convos.get ⟨i, hi⟩).id ≠ convId →
        (updateStreamingMessage convos convId c).get ⟨i, hi'⟩ = convos.get ⟨i, hi⟩) ∧
      ∃ (hj' : j < (((updateStreamingMessage convos convId c).get ⟨i, hi'⟩).messages).length),
        (((convos.get ⟨i, hi⟩).messages.get ⟨j, hj⟩).sender = Sender.user ∨
            ((convos.get ⟨i, hi⟩).messages.get ⟨j, hj⟩).timestamp ≠ "") →
          ((updateStreamingMessage convos convId c).get ⟨i, hi'⟩).messages.get ⟨j, hj'⟩ =
            (convos.get ⟨i, hi⟩).messages.get ⟨j, hj⟩ := by
  have htgt_false : ∀ cv ∈ convos, ∀ m ∈ cv.messages,
      (m.sender = Sender.user ∨ m.timestamp ≠ "") → isStreamingTarget m = false := by
    intro cv hcv m hm hor
    unfold isStreamingTarget
    rcases hor with hu | hts
    · by_cases hend : strEndsWith m.id "-ai" = true
      · have := hwf cv hcv m hm hend
        rw [hu] at this
        exact absurd this (by decide)
      · rw [Bool.not_eq_true] at hend
        simp [hend]
    · have : (m.timestamp == "") = false := by simpa using hts
      simp [this]
  refine ⟨?_, by simp [updateStreamingMessage], ?_⟩
  · -- no-op when the target conversation has no streaming placeholder
    intro hempty
    unfold updateStreamingMessage
    have hcong : ∀ cv ∈ convos, (if cv.id == convId then
        { cv with messages := cv.messages.map fun msg =>
            if isStreamingTarget msg then applyChunkToMessage msg c else msg }
      else cv) = id cv := by
      intro cv hcv
      by_cases h : cv.id = convId
      · have hb : (cv.id == convId) = true := by simp [h]
        simp only [hb, if_true, id]
        have hmsgs : cv.messages.map (fun msg =>
            if isStreamingTarget msg then applyChunkToMessage msg c else msg) = cv.messages := by
          have : ∀ m ∈ cv.messages, (if isStreamingTarget m then applyChunkToMessage m c else m) = id m := by
            intro m hm
            have hfalse : isStreamingTarget m = false := by
              by_cases hts : m.timestamp = ""
              · by_cases hai : m.sender = Sender.ai
                · exact absurd ⟨hai, hts⟩ (hempty cv hcv h m hm)
                · apply htgt_false cv hcv m hm
                  left
                  cases hsd : m.sender
                  · rfl
                  · exact absurd hsd hai
              · exact htgt_false cv hcv m hm (Or.inr hts)
            simp [hfalse]
          rw [List.map_congr_left this, List.map_id]
        rw [hmsgs]
      · have hb : (cv.id == convId) = false := by simp [h]
        simp [hb]
    rw [List.map_congr_left hcong, List.map_id]
  · have hi' : i < (updateStreamingMessage convos convId c).length := by
      simpa [updateStreamingMessage] using hi
    refine ⟨hi', ?_, ?_⟩
    · intro hne
      unfold updateStreamingMessage
      simp only [List.get_eq_getElem, List.getElem_map]
      have hb : ((convos.get ⟨i, hi⟩).id == convId) = false := by
        simp only [List.get_eq_getElem] at hne ⊢
        simpa using hne
      simp only [List.get_eq_getElem] at hb
      simp [hb]
    · have hmem : convos.get ⟨i, hi⟩ ∈ convos := List.get_mem convos _ hi
      have hget : (updateStreamingMessage convos convId c).get ⟨i, hi'⟩ =
          (if (convos.get ⟨i, hi⟩).id == convId then
            { convos.get ⟨i, hi⟩ with messages := (convos.get ⟨i, hi⟩).messages.map (fun msg => if isStreamingTarget msg then applyChunkToMessage msg c else msg) }
          else convos.get ⟨i, hi⟩) := by
        unfold updateStreamingMessage
        simp [List.get_eq_getElem, List.getElem_map]
      by_cases h : (convos.get ⟨i, hi⟩).id = convId
      · have hb : ((convos.get ⟨i, hi⟩).id == convId) = true := by
          simp only [List.get_eq_getElem] at h
          simp [h]
        rw [hb, if_pos rfl] at hget
        have hj' : j < (((updateStreamingMessage convos convId c).get ⟨i, hi'⟩).messages).length := by
          rw [hget]
          simpa using hj
        refine ⟨hj', ?_⟩
        intro hor
        have hfalse := htgt_false _ hmem _ (List.get_mem _ _ hj) hor
        simp only [List.get_eq_getElem] at hget hfalse ⊢
        simp only [hget, List.getElem_map]
        simp [hfalse]
      · have hb : ((convos.get ⟨i, hi⟩).id == convId) = false := by
          simp only [List.get_eq_getElem] at h
          simp [h]
        rw [hb] at hget
        simp only [Bool.false_eq_true, if_false] at hget
        have hj' : j < (((updateStreamingMessage convos convId c).get ⟨i, hi'⟩).messages).length := by
          rw [hget]
          exact hj
        refine ⟨hj', ?_⟩
        intro _
        simp only [List.get_eq_getElem] at hget ⊢
        simp [hget]

/-- Concrete two-conversation state for the C2 witness: conversation
`"A"` holds the streaming token while `"B"` is active. -/
def busyStateC2 : AppState :=
  { conversations :=
      [⟨"B", "Other", [⟨"initial-5", Sender.ai, "hello", "@5", none, none, none, none,
          none, none, none, none, none, none, none⟩], "gemini-2.5-flash"⟩,
       ⟨"A", "Busy", [], "gemini-2.5-pro"⟩],
    activeConversationId := some "B", activeStreaming := some "A",
    isLoading := true, fileErrors := [], storage := none,
    pending := some ⟨"A", [], 0, []⟩, startedSends := 1 }

/-- Witness for C2 at `busyStateC2`. -/
theorem concurrent_send_rejected_without_transport_witness :
    handleSendMessage busyStateC2 9 "hi" [] =
      ({ busyStateC2 with fileErrors := [pleaseWaitMsg] }, SendOutcome.rejectedBusy) ∧
    (handleSendMessage busyStateC2 9 "hi" []).1.conversations = busyStateC2.conversations ∧
    (handleSendMessage busyStateC2 9 "hi" []).1.pending = busyStateC2.pending ∧
    (handleSendMessage busyStateC2 9 "hi" []).1.startedSends = busyStateC2.startedSends ∧
    (handleSendMessage busyStateC2 9 "hi" []).1.storage = busyStateC2.storage ∧
    (handleSendMessage busyStateC2 9 "hi" []).1.activeStreaming = busyStateC2.activeStreaming ∧
    (handleSendMessage busyStateC2 9 "hi" []).1.isLoading = busyStateC2.isLoading :=
  concurrent_send_rejected_without_transport busyStateC2 9 "hi" [] "A" "B"
    rfl rfl (by decide) rfl (by decide)

/-- Concrete repository for the C9 witness: one finalized exchange. -/
def frameConvosC9 : List Conversation :=
  [⟨"A", "T", [⟨"u0", Sender.user, "question", "@0", none, none, none, none,
      none, none, none, none, none, none, none⟩,
    ⟨"10-ai", Sender.ai, "answer", "@1", none, none, none, none,
      none, none, none, none, none, none, none⟩], "gemini-2.5-pro"⟩]

/-- Witness for C9 at `frameConvosC9` (no placeholder: the patch is a
no-op and the finalized messages are untouched). -/
theorem patchStreamingMessage_noop_and_frame_witness :
    ((∀ cv ∈ frameConvosC9, cv.id = "A" → ∀ m ∈ cv.messages,
        ¬(m.sender = Sender.ai ∧ m.timestamp = "")) →
      updateStreamingMessage frameConvosC9 "A" { text := some "late" } = frameConvosC9) ∧
    (updateStreamingMessage frameConvosC9 "A" { text := some "late" }).length =
      frameConvosC9.length ∧
    ∃ (hi' : 0 < (updateStreamingMessage frameConvosC9 "A" { text := some "late" }).length),
      ((frameConvosC9.get ⟨0, by decide⟩).id ≠ "A" →
        (updateStreamingMessage frameConvosC9 "A" { text := some "late" }).get ⟨0, hi'⟩ =
          frameConvosC9.get ⟨0, by decide⟩) ∧
      ∃ (hj' : 0 < (((updateStreamingMessage frameConvosC9 "A" { text := some "late" }).get ⟨0, hi'⟩).messages).length),
        (((frameConvosC9.get ⟨0, by decide⟩).messages.get ⟨0, by decide⟩).sender = Sender.user ∨
            ((frameConvosC9.get ⟨0, by decide⟩).messages.get ⟨0, by decide⟩).timestamp ≠ "") →
          ((updateStreamingMessage frameConvosC9 "A" { text := some "late" }).get ⟨0, hi'⟩).messages.get ⟨0, hj'⟩ =
            (frameConvosC9.get ⟨0, by decide⟩).messages.get ⟨0, by decide⟩ :=
  patchStreamingMessage_noop_and_frame frameConvosC9 "A" { text := some "late" } 0 0
    (by
      intro cv hcv m hm hend
      simp only [frameConvosC9, List.mem_singleton] at hcv
      subst hcv
      simp only [List.mem_cons, List.not_mem_nil, or_false] at hm
      rcases hm with h | h
      · rw [h] at hend
        exact absurd hend (by decide)
      · rw [h])
    (by decide) (by decide)

/-! ## C10 — per-file validation, but all-or-nothing batch gating -/

/-- Characterization of `validateFiles`'s fold. -/
theorem validateFiles_foldl (files : List SimFile) :
    ∀ acc : FileValidationResult,
      files.foldl validateFilesStep acc =
        ⟨acc.valid ++ files.filter fileOk,
         acc.errors ++ (files.filter fun f => !fileOk f).map fileErrorMsg⟩ := by
  induction files with
  | nil => intro acc; simp
  | cons f fs ih =>
    intro acc
    rw [List.foldl_cons, ih]
    by_cases h1 : f.size > MAX_FILE_SIZE
    · have hok : fileOk f = false := by simp [fileOk, h1]
      have hmsg : fileErrorMsg f = f.name ++ " exceeds 50MB limit" := by
        simp [fileErrorMsg, h1]
      simp [validateFilesStep, h1, hok, hmsg, List.filter_cons]
    · by_cases h2 : ALLOWED_TYPES.any fun t => strStartsWith f.mime t
      · have hok : fileOk f = true := by simp [fileOk, h1, h2]
        simp [validateFilesStep, h1, h2, hok, List.filter_cons]
      · have hok : fileOk f = false := by simp [fileOk, h2]
        have hmsg : fileErrorMsg f =
            f.name ++ " is not an allowed file type (only images and PDFs are supported)" := by
          simp [fileErrorMsg, h1]
        simp [validateFilesStep, h1, h2, hok, hmsg, List.filter_cons]

/-- C10 (amended): `validate` partitions its input per file — a file is
accepted iff it is within the size ceiling and of an allowed type, and
every rejected file yields one message naming it — but the send is
all-or-nothing per **batch**: any error aborts `handleSendMessage` before
a mutation starts, so valid files of a mixed batch do not proceed; only
an all-valid batch (where `valid` is the whole input) is sent. -/
theorem validateFiles_partitions_but_batch_gates (files : List SimFile)
    (s : AppState) (now : Nat) (text : String) :
    (validateFiles files).valid = files.filter fileOk ∧
    (validateFiles files).errors = (files.filter fun f => !fileOk f).map fileErrorMsg ∧
    ((validateFiles files).errors ≠ [] →
      handleSendMessage s now text files =
        ({ s with fileErrors := (validateFiles files).errors }, SendOutcome.rejectedFiles)) ∧
    ((validateFiles files).errors = [] → (validateFiles files).valid = files) := by
  have hspec := validateFiles_foldl files ⟨[], []⟩
  refine ⟨?_, ?_, ?_, ?_⟩
  · unfold validateFiles
    rw [hspec]
    simp
  · unfold validateFiles
    rw [hspec]
    simp
  · intro hne
    have hempty : (validateFiles files).errors.isEmpty = false := by
      cases h : (validateFiles files).errors with
      | nil => exact absurd h hne
      | cons a t => rfl
    unfold handleSendMessage
    simp [hempty]
  · intro h0
    unfold validateFiles at h0 ⊢
    rw [hspec] at h0 ⊢
    simp only [List.nil_append] at h0 ⊢
    have : files.filter (fun f => !fileOk f) = [] := by
      cases h : files.filter fun f => !fileOk f with
      | nil => rfl
      | cons a t =>
        rw [h] at h0
        exact absurd h0 (by simp)
    have hall : ∀ f ∈ files, fileOk f = true := by
      intro f hf
      by_cases hok : fileOk f = true
      · exact hok
      · exfalso
        have hbad : (fun f => !fileOk f) f = true := by
          rw [Bool.not_eq_true] at hok
          simp [hok]
        have : f ∈ files.filter fun f => !fileOk f := List.mem_filter.2 ⟨hf, hbad⟩
        rw [‹files.filter (fun f => !fileOk f) = []›] at this
        simp at this
    exact List.filter_eq_self.2 hall

/-- A valid image file. -/
def goodFileC10 : SimFile := { name := "pic.png", size := 10, mime := "image/png" }

/-- An oversized, wrong-type file. -/
def badFileC10 : SimFile :=
  { name := "big.bin", size := 60 * 1024 * 1024, mime := "application/zip" }

/-- A quiescent one-conversation state for the C10 counterexample. -/
def sendStateC10 : AppState :=
  { conversations := [⟨"A", "T", [], "gemini-2.5-pro"⟩],
    activeConversationId := some "A", activeStreaming := none,
    isLoading := false, fileErrors := [], storage := none, pending := none,
    startedSends := 0 }

/-- Counterexample to C10 as stated: in a batch holding one valid and one
invalid file, `validateFiles` accepts the valid file, yet
`handleSendMessage` aborts the whole send — no mutation starts, the
repository is untouched, and the valid file is not sent. -/
theorem mixed_batch_valid_file_does_not_proceed :
    (validateFiles [goodFileC10, badFileC10]).valid = [goodFileC10] ∧
    (validateFiles [goodFileC10, badFileC10]).errors =
      ["big.bin exceeds 50MB limit"] ∧
    (handleSendMessage sendStateC10 8 "see files" [goodFileC10, badFileC10]).2 =
      SendOutcome.rejectedFiles ∧
    (handleSendMessage sendStateC10 8 "see files" [goodFileC10, badFileC10]).1.conversations =
      sendStateC10.conversations ∧
    (handleSendMessage sendStateC10 8 "see files" [goodFileC10, badFileC10]).1.startedSends =
      sendStateC10.startedSends ∧
    (handleSendMessage sendStateC10 8 "see files" [goodFileC10, badFileC10]).1.pending = none := by
  refine ⟨by decide, by decide, by decide, by decide, by decide, by decide⟩

/-! ## C8 — escalation is global app state, reset by new-chat -/

/-- C8 (amended): the escalation flag is global application state, not a
per-conversation property.  While it is set, every send — in whatever
conversation is active — resolves to the highest-capability model unless
the selected model is the image-generation variant, a send never clears
it, and conversation switches never clear it; but `handleNewChat` resets
it, so it is **not** sticky for the remainder of a conversation's
lifetime (see the counterexample). -/
theorem escalation_persists_until_new_chat (s : EscState) (text : String)
    (nf : Nat) (hpro : s.isProSession = true)
    (himg : s.selectedModel ≠ "gemini-2.5-flash-image") :
    (escSend s text nf).2 = "gemini-2.5-pro" ∧
    (escSend s text nf).1.isProSession = true ∧
    (∀ id, (escSelectConversation s id).isProSession = true) ∧
    (∀ newId, (escNewChat s newId).isProSession = false) := by
  refine ⟨?_, ?_, ?_, ?_⟩
  · unfold escSend resolveTargetModel
    have hb : (s.selectedModel == "gemini-2.5-flash-image") = false := by
      simpa using himg
    simp [hb, hpro]
  · unfold escSend
    simp [hpro]
  · intro id
    unfold escSelectConversation
    cases s.convs.find? fun p => p.1 == id <;> simp [hpro]
  · intro newId
    rfl

/-- The escalation state used by the witness and the counterexample. -/
def escStateC8 : EscState :=
  { isProSession := false, selectedModel := "gemini-2.5-flash",
    activeId := "A", convs := [("A", "gemini-2.5-flash")] }

/-- Witness for the amended C8 in an escalated state. -/
theorem escalation_persists_until_new_chat_witness :
    (escSend { escStateC8 with isProSession := true } "hello" 0).2 = "gemini-2.5-pro" ∧
    (escSend { escStateC8 with isProSession := true } "hello" 0).1.isProSession = true ∧
    (∀ id, (escSelectConversation { escStateC8 with isProSession := true } id).isProSession = true) ∧
    (∀ newId, (escNewChat { escStateC8 with isProSession := true } newId).isProSession = false) :=
  escalation_persists_until_new_chat { escStateC8 with isProSession := true }
    "hello" 0 rfl (by decide)

/-- Counterexample to C8 as stated: conversation `"A"` is escalated by a
send carrying a file (it resolves to the pro model and sets the flag),
but after a new chat is created and `"A"` is selected again, a text-only
send in the **same conversation** resolves to the selected model, not
the escalated one — the flag did not survive the conversation's
lifetime. -/
theorem escalation_not_sticky_per_conversation :
    (escSend escStateC8 "see the attached file" 1).2 = "gemini-2.5-pro" ∧
    (escSend escStateC8 "see the attached file" 1).1.isProSession = true ∧
    (escSelectConversation (escNewChat (escSend escStateC8 "see the attached file" 1).1 "B")
        "A").activeId = "A" ∧
    (escSend (escSelectConversation
        (escNewChat (escSend escStateC8 "see the attached file" 1).1 "B") "A")
      "hello" 0).2 = "gemini-2.5-flash" ∧
    "gemini-2.5-flash" ≠ "gemini-2.5-pro" := by
  refine ⟨by decide, by decide, by decide, by decide, by decide⟩

/-! ## C4 — text and reasoning-trace assembly -/

/-- Left identity of string append. -/
theorem string_empty_append (s : String) : "" ++ s = s := by
  apply String.ext
  simp [String.data_append]

/-- Joining a list of strings peels off its head. -/
theorem string_join_cons (s : String) (l : List String) :
    String.join (s :: l) = s ++ String.join l := by
  have key : ∀ (l : List String) (a : String),
      l.foldl (· ++ ·) a = a ++ l.foldl (· ++ ·) "" := by
    intro l
    induction l with
    | nil => intro a; simp [String.append_empty]
    | cons x t ih =>
      intro a
      rw [List.foldl_cons, List.foldl_cons, ih (a ++ x), ih ("" ++ x),
        string_empty_append, String.append_assoc]
  unfold String.join
  rw [List.foldl_cons, key l ("" ++ s), string_empty_append]

/-- One chunk appends its (possibly empty) text fragment. -/
theorem applyChunk_text (m : Message) (c : Chunk) :
    (applyChunkToMessage m c).text = m.text ++ c.text.getD "" := by
  by_cases h : strTruthy c.text
  · simp [applyChunkToMessage, h]
  · have hget : c.text.getD "" = "" := by
      cases ht : c.text with
      | none => rfl
      | some s =>
        rw [ht, Bool.not_eq_true] at h
        unfold strTruthy at h
        dsimp only at h
        cases hb : s == "" with
        | true => simp [eq_of_beq hb]
        | false => rw [hb] at h; exact absurd h (by decide)
    simp [applyChunkToMessage, h, hget, String.append_empty]

/-- One chunk appends its (possibly empty) reasoning fragment, viewed
through `getD ""` (absent and empty reasoning coincide in the merge). -/
theorem applyChunk_thought (m : Message) (c : Chunk) :
    (applyChunkToMessage m c).thoughts.getD "" =
      m.thoughts.getD "" ++ c.thought.getD "" := by
  by_cases h : strTruthy c.thought
  · simp [applyChunkToMessage, h]
  · have hget : c.thought.getD "" = "" := by
      cases ht : c.thought with
      | none => rfl
      | some s =>
        rw [ht, Bool.not_eq_true] at h
        unfold strTruthy at h
        dsimp only at h
        cases hb : s == "" with
        | true => simp [eq_of_beq hb]
        | false => rw [hb] at h; exact absurd h (by decide)
    simp [applyChunkToMessage, h, hget, String.append_empty]

/-- Folding a chunk stream concatenates the text fragments in arrival
order after the existing text, and likewise the reasoning fragments. -/
theorem applyChunkList_text_thoughts (cs : List Chunk) :
    ∀ m : Message,
      (applyChunkList m cs).text =
        m.text ++ String.join (cs.map fun c => c.text.getD "") ∧
      (applyChunkList m cs).thoughts.getD "" =
        m.thoughts.getD "" ++ String.join (cs.map fun c => c.thought.getD "") := by
  induction cs with
  | nil =>
    intro m
    constructor <;> simp [applyChunkList, String.join, String.append_empty]
  | cons c cs' ih =>
    intro m
    have h1 : applyChunkList m (c :: cs') = applyChunkList (applyChunkToMessage m c) cs' := rfl
    rcases ih (applyChunkToMessage m c) with ⟨ht, hth⟩
    constructor
    · rw [h1, ht, applyChunk_text, List.map_cons, string_join_cons, String.append_assoc]
    · rw [h1, hth, applyChunk_thought, List.map_cons, string_join_cons, String.append_assoc]

/-- Joining only empty strings yields the empty string. -/
theorem string_join_all_empty : ∀ l : List String, (∀ s ∈ l, s = "") →
    String.join l = "" := by
  intro l
  induction l with
  | nil => intro _; rfl
  | cons s t ih =>
    intro h
    rw [string_join_cons, h s (List.mem_cons_self s t),
      ih fun x hx => h x (List.mem_cons_of_mem s hx), string_empty_append]

/-- Every callback produced by the per-part loop (thought, code and
code-output emissions) carries no `text` field. -/
theorem partCallbacks_text_none (cb : Chunk) :
    ∀ parts : List RawPart,
      cb ∈ parts.foldr (fun p rest =>
        (if p.thought then [{ thought := p.text : Chunk }] else []) ++
        (if strTruthy p.executableCode then [{ executableCode := p.executableCode : Chunk }] else []) ++
        (if strTruthy p.codeExecutionResult then [{ codeExecutionResult := p.codeExecutionResult : Chunk }] else []) ++
        rest) [] → cb.text = none := by
  intro parts
  induction parts with
  | nil => intro h; simp at h
  | cons p ps ih =>
    intro h
    rw [List.foldr_cons] at h
    rcases List.mem_append.1 h with h1 | hrest
    · rcases List.mem_append.1 h1 with h2 | h3
      · rcases List.mem_append.1 h2 with h4 | h5
        · split at h4 <;> simp at h4
          rw [h4]
        · split at h5 <;> simp at h5
          rw [h5]
      · split at h3 <;> simp at h3
        rw [h3]
    · exact ih hrest

/-- With every part a reasoning / code / code-output part, no part
passes the text filter. -/
theorem textParts_nil_of_excluded (ck : RawChunk)
    (hexcl : ∀ p ∈ ck.parts, p.thought = true ∨ p.executableCode ≠ none ∨
      p.codeExecutionResult ≠ none) :
    ck.parts.filter isTextPart = [] := by
  apply List.filter_eq_nil_iff.mpr
  intro p hp
  rcases hexcl p hp with h | h | h
  · simp [isTextPart, h]
  · have : (p.executableCode == none) = false := by
      cases he : p.executableCode with
      | none => exact absurd he h
      | some v => rfl
    simp [isTextPart, this]
  · have : (p.codeExecutionResult == none) = false := by
      cases he : p.codeExecutionResult with
      | none => exact absurd he h
      | some v => rfl
    simp [isTextPart, this]

/-- The four-chunk demonstration stream of the specification. -/
def demoChunksC4 : List Chunk :=
  [{ text := some "Hel" }, { text := some "lo" },
   { thought := some "thinking" }, { text := some "!" }]

/-- C4: folding a chunk stream concatenates plain-text fragments in
arrival order and appends reasoning fragments to the trace; parts marked
as reasoning, code or code output are excluded from the text channel (the
filter of `streamGeminiResponse` removes them, and the callbacks they do
produce never touch `text`); on the demonstration stream the placeholder
ends with text `"Hello!"` and reasoning-trace `"thinking"`. -/
theorem streaming_fold_assembles_text_and_thoughts (msg : Message)
    (cs : List Chunk) (ck : RawChunk)
    (hexcl : ∀ p ∈ ck.parts, p.thought = true ∨ p.executableCode ≠ none ∨
      p.codeExecutionResult ≠ none) :
    (applyChunkList (mkAiPlaceholder 5) demoChunksC4).text = "Hello!" ∧
    (applyChunkList (mkAiPlaceholder 5) demoChunksC4).thoughts = some "thinking" ∧
    (applyChunkList msg cs).text =
      msg.text ++ String.join (cs.map fun c => c.text.getD "") ∧
    (applyChunkList msg cs).thoughts.getD "" =
      msg.thoughts.getD "" ++ String.join (cs.map fun c => c.thought.getD "") ∧
    textContentOf ck = "" ∧
    (applyChunkList msg (chunkCallbacks ck)).text = msg.text := by
  refine ⟨by decide, by decide, (applyChunkList_text_thoughts cs msg).1,
    (applyChunkList_text_thoughts cs msg).2, ?_, ?_⟩
  · unfold textContentOf
    rw [textParts_nil_of_excluded ck hexcl]
    rfl
  · rw [(applyChunkList_text_thoughts (chunkCallbacks ck) msg).1]
    have hnone : ∀ cb ∈ chunkCallbacks ck, cb.text = none := by
      intro cb hcb
      unfold chunkCallbacks at hcb
      rcases List.mem_append.1 hcb with h1 | h2
      · rcases List.mem_append.1 h1 with h3 | h4
        · rcases List.mem_append.1 h3 with h5 | h6
          · exact partCallbacks_text_none cb ck.parts h5
          · split at h6 <;> simp at h6
            rw [h6]
        · rw [textParts_nil_of_excluded ck hexcl] at h4
          simp at h4
      · split at h2 <;> simp at h2
        rw [h2]
    have hempty : String.join ((chunkCallbacks ck).map fun c => c.text.getD "") = "" := by
      apply string_join_all_empty
      intro s hs
      rcases List.mem_map.1 hs with ⟨cb, hcb, hEq⟩
      rw [← hEq, hnone cb hcb]
      rfl
    rw [hempty, String.append_empty]

/-- Witness for C4: one reasoning-only raw chunk discharges the
exclusion hypothesis. -/
theorem streaming_fold_assembles_text_and_thoughts_witness :
    (applyChunkList (mkAiPlaceholder 5) demoChunksC4).text = "Hello!" ∧
    (applyChunkList (mkAiPlaceholder 5) demoChunksC4).thoughts = some "thinking" ∧
    (applyChunkList (mkAiPlaceholder 7) demoChunksC4).text =
      (mkAiPlaceholder 7).text ++ String.join (demoChunksC4.map fun c => c.text.getD "") ∧
    (applyChunkList (mkAiPlaceholder 7) demoChunksC4).thoughts.getD "" =
      (mkAiPlaceholder 7).thoughts.getD "" ++
        String.join (demoChunksC4.map fun c => c.thought.getD "") ∧
    textContentOf { parts := [{ thought := true, text := some "pondering" }] } = "" ∧
    (applyChunkList (mkAiPlaceholder 7)
      (chunkCallbacks { parts := [{ thought := true, text := some "pondering" }] })).text =
      (mkAiPlaceholder 7).text :=
  streaming_fold_assembles_text_and_thoughts (mkAiPlaceholder 7) demoChunksC4
    { parts := [{ thought := true, text := some "pondering" }] }
    (by
      intro p hp
      simp only [List.mem_singleton] at hp
      subst hp
      left
      rfl)

/-! ## C5 — citation accumulation and de-duplication -/

/-- The guarded push keeps the URI list duplicate-free. -/
theorem pushSource_nodup (acc : List SourceRef) (s : SourceRef)
    (h : (acc.map SourceRef.uri).Nodup) :
    ((pushSource acc s).map SourceRef.uri).Nodup := by
  unfold pushSource
  by_cases hany : acc.any fun o => o.uri == s.uri
  · simp only [hany, if_true]
    exact h
  · simp only [hany, Bool.false_eq_true, if_false, List.map_append, List.map_cons,
      List.map_nil]
    apply List.nodup_append.2
    refine ⟨h, List.nodup_singleton _, ?_⟩
    intro u hu1 hu2
    simp only [List.mem_singleton] at hu2
    subst hu2
    rcases List.mem_map.1 hu1 with ⟨o, ho, hoEq⟩
    rw [Bool.not_eq_true] at hany
    have : (o.uri == s.uri) = true := by simp [hoEq]
    have hany' : acc.any (fun o => o.uri == s.uri) = true :=
      List.any_eq_true.2 ⟨o, ho, this⟩
    rw [hany'] at hany
    exact Bool.noConfusion hany

/-- A fold preserves any invariant its step preserves. -/
theorem foldl_preserves {α β : Type} (P : α → Prop) (step : α → β → α)
    (hstep : ∀ a b, P a → P (step a b)) :
    ∀ (l : List β) (a : α), P a → P (l.foldl step a) := by
  intro l
  induction l with
  | nil => intro a h; exact h
  | cons x t ih =>
    intro a h
    rw [List.foldl_cons]
    exact ih (step a x) (hstep a x h)

/-- Both citation-extraction branches keep the URI list duplicate-free. -/
theorem extract_steps_nodup (acc : List SourceRef)
    (h : (acc.map SourceRef.uri).Nodup) :
    (∀ meta : UrlMeta, ((extractUrlSource acc meta).map SourceRef.uri).Nodup) ∧
    (∀ g : GroundingChunk, ((extractGroundingSource acc g).map SourceRef.uri).Nodup) := by
  constructor
  · intro meta
    unfold extractUrlSource
    cases meta.retrievedUrl with
    | none => exact h
    | some url =>
      by_cases hu : url == ""
      · simp only [hu, if_true]
        exact h
      · simp only [hu, Bool.false_eq_true, if_false]
        exact pushSource_nodup acc _ h
  · intro g
    unfold extractGroundingSource
    cases g.maps with
    | some mi =>
      by_cases hm : strTruthy mi.uri && strTruthy mi.title
      · simp only [hm, if_true]
        exact pushSource_nodup acc _ h
      · simp only [hm, Bool.false_eq_true, if_false]
        cases g.web with
        | some wi =>
          by_cases hw : strTruthy wi.uri && strTruthy wi.title
          · simp only [hw, if_true]
            exact pushSource_nodup acc _ h
          · simp only [hw, Bool.false_eq_true, if_false]
            exact h
        | none => exact h
    | none =>
      cases g.web with
      | some wi =>
        by_cases hw : strTruthy wi.uri && strTruthy wi.title
        · simp only [hw, if_true]
          exact pushSource_nodup acc _ h
        · simp only [hw, Bool.false_eq_true, if_false]
          exact h
      | none => exact h

/-- The per-chunk citation list built by `streamGeminiResponse` never
contains two entries with the same URI. -/
theorem extractSources_nodup (ck : RawChunk) :
    ((extractSources ck).map SourceRef.uri).Nodup := by
  unfold extractSources
  exact foldl_preserves (fun acc => (acc.map SourceRef.uri).Nodup) extractGroundingSource
    (fun acc g hacc => (extract_steps_nodup acc hacc).2 g) ck.groundingChunks _
    (foldl_preserves (fun acc => (acc.map SourceRef.uri).Nodup) extractUrlSource
      (fun acc meta hacc => (extract_steps_nodup acc hacc).1 meta) ck.urlMetadata []
      (by simp))

/-- What one chunk application does to the citation list: the old list
is a prefix of the new one; URI-nodup is preserved when the chunk's own
list is nodup; and a URI is present afterwards iff it was present before
or the chunk carries it. -/
theorem applyChunk_sources_step (m : Message) (c : Chunk) :
    ((m.sources.getD []) <+: ((applyChunkToMessage m c).sources.getD [])) ∧
    ((((m.sources.getD []).map SourceRef.uri).Nodup →
      (∀ l, c.sources = some l → (l.map SourceRef.uri).Nodup) →
      (((applyChunkToMessage m c).sources.getD []).map SourceRef.uri).Nodup)) ∧
    (∀ u, u ∈ ((applyChunkToMessage m c).sources.getD []).map SourceRef.uri ↔
      u ∈ (m.sources.getD []).map SourceRef.uri ∨
      ∃ l, c.sources = some l ∧ u ∈ l.map SourceRef.uri) := by
  have hsrc : (applyChunkToMessage m c).sources = match c.sources with
      | some newSrcs => some ((m.sources.getD []) ++ (newSrcs.filter fun sNew =>
          !((m.sources.getD []).any fun sOld => sOld.uri == sNew.uri)))
      | none => m.sources := rfl
  cases hc : c.sources with
  | none =>
    rw [hc] at hsrc
    rw [hsrc]
    refine ⟨List.prefix_refl _, fun h _ => h, ?_⟩
    intro u
    constructor
    · intro hu
      exact Or.inl hu
    · intro hu
      rcases hu with hu | ⟨l, hl, _⟩
      · exact hu
      · exact absurd hl (by simp)
  | some l =>
    rw [hc] at hsrc
    rw [hsrc]
    simp only [Option.getD_some]
    refine ⟨List.prefix_append _ _, ?_, ?_⟩
    · intro hold hchunk
      have hl : (l.map SourceRef.uri).Nodup := hchunk l rfl
      rw [List.map_append]
      apply List.nodup_append.2
      refine ⟨hold, ?_, ?_⟩
      · have hsub : (l.filter fun sNew =>
            !((m.sources.getD []).any fun sOld => sOld.uri == sNew.uri)).Sublist l :=
          List.filter_sublist l
        exact hl.sublist (hsub.map SourceRef.uri)
      · intro u hu1 hu2
        rcases List.mem_map.1 hu2 with ⟨x, hx, hxEq⟩
        rcases List.mem_filter.1 hx with ⟨_, hxkeep⟩
        rw [Bool.not_eq_eq_eq_not, Bool.not_true] at hxkeep
        rcases List.mem_map.1 hu1 with ⟨o, ho, hoEq⟩
        have : (m.sources.getD []).any (fun sOld => sOld.uri == x.uri) = true :=
          List.any_eq_true.2 ⟨o, ho, by simp [hoEq, hxEq]⟩
        rw [this] at hxkeep
        exact Bool.noConfusion hxkeep
    · intro u
      rw [List.map_append, List.mem_append]
      constructor
      · intro hu
        rcases hu with hu | hu
        · exact Or.inl hu
        · rcases List.mem_map.1 hu with ⟨x, hx, hxEq⟩
          refine Or.inr ⟨l, rfl, ?_⟩
          rw [← hxEq]
          exact List.mem_map_of_mem SourceRef.uri (List.mem_of_mem_filter hx)
      · intro hu
        rcases hu with hu | ⟨l', hl', hul⟩
        · exact Or.inl hu
        · have hll : l' = l := (Option.some.inj hl').symm
          subst hll
          by_cases hold : u ∈ (m.sources.getD []).map SourceRef.uri
          · exact Or.inl hold
          · right
            rcases List.mem_map.1 hul with ⟨x, hx, hxEq⟩
            have hkeep : (!((m.sources.getD []).any fun sOld => sOld.uri == x.uri)) = true := by
              rw [Bool.not_eq_eq_eq_not, Bool.not_true]
              by_cases hany : (m.sources.getD []).any (fun sOld => sOld.uri == x.uri) = true
              · exfalso
                rcases List.any_eq_true.1 hany with ⟨o, ho, hoEq⟩
                apply hold
                rw [← hxEq]
                have houri : o.uri = x.uri := by simpa using hoEq
                rw [← houri]
                exact List.mem_map_of_mem SourceRef.uri ho
              · rwa [Bool.not_eq_true] at hany
            rw [← hxEq]
            exact List.mem_map_of_mem SourceRef.uri (List.mem_filter.2 ⟨hx, hkeep⟩)

/-- Folding a chunk stream over a message: citations are only appended
(the old list is a prefix), URI-nodup is preserved, and a URI ends up in
the list iff it was there or some chunk carried it. -/
theorem applyChunkList_sources (cs : List Chunk) :
    ∀ msg : Message,
      ((msg.sources.getD []) <+: ((applyChunkList msg cs).sources.getD [])) ∧
      (((msg.sources.getD []).map SourceRef.uri).Nodup →
        (∀ c ∈ cs, ∀ l, c.sources = some l → (l.map SourceRef.uri).Nodup) →
        (((applyChunkList msg cs).sources.getD []).map SourceRef.uri).Nodup) ∧
      (∀ u, u ∈ ((applyChunkList msg cs).sources.getD []).map SourceRef.uri ↔
        u ∈ (msg.sources.getD []).map SourceRef.uri ∨
        ∃ c ∈ cs, ∃ l, c.sources = some l ∧ u ∈ l.map SourceRef.uri) := by
  induction cs with
  | nil =>
    intro msg
    refine ⟨List.prefix_refl _, fun h _ => h, ?_⟩
    intro u
    simp [applyChunkList]
  | cons c cs' ih =>
    intro msg
    have h1 : applyChunkList msg (c :: cs') =
        applyChunkList (applyChunkToMessage msg c) cs' := rfl
    obtain ⟨hstep_pre, hstep_nd, hstep_mem⟩ := applyChunk_sources_step msg c
    obtain ⟨hih_pre, hih_nd, hih_mem⟩ := ih (applyChunkToMessage msg c)
    refine ⟨?_, ?_, ?_⟩
    · rw [h1]
      exact hstep_pre.trans hih_pre
    · intro hmsg hcs
      rw [h1]
      apply hih_nd
      · exact hstep_nd hmsg fun l hl => hcs c (List.mem_cons_self c cs') l hl
      · exact fun c' hc' => hcs c' (List.mem_cons_of_mem c hc')
    · intro u
      rw [h1, hih_mem u]
      rw [hstep_mem u]
      constructor
      · rintro ((hm | ⟨l, hl, hul⟩) | ⟨c', hc', l, hl, hul⟩)
        · exact Or.inl hm
        · exact Or.inr ⟨c, List.mem_cons_self c cs', l, hl, hul⟩
        · exact Or.inr ⟨c', List.mem_cons_of_mem c hc', l, hl, hul⟩
      · rintro (hm | ⟨c', hc', l, hl, hul⟩)
        · exact Or.inl (Or.inl hm)
        · rcases List.mem_cons.1 hc' with hceq | hc'mem
          · subst hceq
            exact Or.inl (Or.inr ⟨l, hl, hul⟩)
          · exact Or.inr ⟨c', hc'mem, l, hl, hul⟩

/-- C5: the per-chunk extraction never emits duplicate URIs; during a
streaming turn citations are only appended, never removed; the
accumulated list stays duplicate-free by URI; and a URI carried by at
least one chunk of the turn ends up with exactly one entry. -/
theorem citations_accumulate_and_dedup_by_uri (msg : Message) (cs : List Chunk)
    (ck : RawChunk) (u : String)
    (hmsg : ((msg.sources.getD []).map SourceRef.uri).Nodup)
    (hcs : ∀ c ∈ cs, ∀ l, c.sources = some l → (l.map SourceRef.uri).Nodup)
    (hu : ∃ c ∈ cs, ∃ l, c.sources = some l ∧ u ∈ l.map SourceRef.uri) :
    ((extractSources ck).map SourceRef.uri).Nodup ∧
    ((msg.sources.getD []) <+: ((applyChunkList msg cs).sources.getD [])) ∧
    (((applyChunkList msg cs).sources.getD []).map SourceRef.uri).Nodup ∧
    (((applyChunkList msg cs).sources.getD []).map SourceRef.uri).count u = 1 := by
  obtain ⟨hpre, hnd, hmem⟩ := applyChunkList_sources cs msg
  have hnodup := hnd hmsg hcs
  refine ⟨extractSources_nodup ck, hpre, hnodup, ?_⟩
  exact List.count_eq_one_of_mem hnodup ((hmem u).2 (Or.inr hu))

/-- Two chunks carrying the same citation URI, for the C5 witness. -/
def dupChunksC5 : List Chunk :=
  [{ sources := some [⟨"https://s.example/a", "first", none⟩] },
   { sources := some [⟨"https://s.example/a", "second", none⟩] }]

/-- Witness for C5: feeding the placeholder two chunks with the same URI
leaves exactly one entry for it. -/
theorem citations_accumulate_and_dedup_by_uri_witness :
    ((extractSources { parts := [] }).map SourceRef.uri).Nodup ∧
    (((mkAiPlaceholder 3).sources.getD []) <+:
      ((applyChunkList (mkAiPlaceholder 3) dupChunksC5).sources.getD [])) ∧
    (((applyChunkList (mkAiPlaceholder 3) dupChunksC5).sources.getD []).map
      SourceRef.uri).Nodup ∧
    (((applyChunkList (mkAiPlaceholder 3) dupChunksC5).sources.getD []).map
      SourceRef.uri).count "https://s.example/a" = 1 :=
  citations_accumulate_and_dedup_by_uri (mkAiPlaceholder 3) dupChunksC5
    { parts := [] } "https://s.example/a"
    (by decide)
    (by
      intro c hc l hl
      simp only [dupChunksC5, List.mem_cons, List.not_mem_nil, or_false] at hc
      rcases hc with h | h <;> subst h <;>
        · have := Option.some.inj hl
          rw [← this]
          decide)
    ⟨{ sources := some [⟨"https://s.example/a", "first", none⟩] },
      by decide, [⟨"https://s.example/a", "first", none⟩], rfl, by decide⟩

/-- Witness for the amended C10 at the mixed batch: the partition is as
specified and the batch is rejected before any mutation starts. -/
theorem validateFiles_partitions_but_batch_gates_witness :
    (validateFiles [goodFileC10, badFileC10]).valid =
      [goodFileC10, badFileC10].filter fileOk ∧
    handleSendMessage sendStateC10 8 "see files" [goodFileC10, badFileC10] =
      ({ sendStateC10 with
          fileErrors := (validateFiles [goodFileC10, badFileC10]).errors },
        SendOutcome.rejectedFiles) :=
  ⟨(validateFiles_partitions_but_batch_gates [goodFileC10, badFileC10]
      sendStateC10 8 "see files").1,
   (validateFiles_partitions_but_batch_gates [goodFileC10, badFileC10]
      sendStateC10 8 "see files").2.2.1 (by decide)⟩
